import Mathlib

/-!
Verification of the deep-trader decision pipeline.

This file gives a shallow embedding, in Lean 4 over exact rationals, of the
parts of the Go sources that the verified claims are about:

* `risk.go` (the newer of the two versions in the file, the one with the
  per-strategy `RiskConfig`, the altcoin risk cap and the global risk budget):
  `ValidateDecisions` / `validateDecision`.
* `main.go`: `normalizeDecisionActions`, the defensive-mode override of the
  main loop, `enforceHardStopLoss`.
* `simulated_exchange.go`: `FetchMarketData`, `ExecuteDecision`.
* `backtest_exchange.go`: `revalueAccount`, `ExecuteDecision`.
* `brain.go`: `parseAIResponse` and its concrete helpers; the regex-based
  extraction helpers and `json.Unmarshal` are abstracted as parameters, so the
  theorems about the parser hold for every behaviour of those helpers.

Go `float64` arithmetic is modelled by ℚ (exact real arithmetic); every
division performed by the embedded code is guarded by the same positivity
checks as in the source, so no division by zero occurs on the modelled paths.
Go maps are modelled by association lists; struct fields that no embedded
code path reads (timestamps, liquidation price, indicator bundles, ...) are
omitted from the structures.
-/

deriving instance DecidableEq for Except

namespace DeepTrader

/-- Market data snapshot; only the fields read by the embedded code paths
(`CurrentPrice` and `ATR14_5m` of `types.go`'s `MarketData`) are modelled. -/
structure MarketData where
  symbol : String
  currentPrice : ℚ
  atr14_5m : ℚ
  deriving DecidableEq, Repr

/-- `types.go` `AccountInfo`. -/
structure AccountInfo where
  totalEquity : ℚ
  availableBalance : ℚ
  unrealizedPnL : ℚ
  totalPnL : ℚ
  totalPnLPct : ℚ
  marginUsed : ℚ
  marginUsedPct : ℚ
  positionCount : Int
  deriving DecidableEq, Repr

/-- `types.go` `PositionInfo` (unused time / peak / liquidation fields omitted). -/
structure PositionInfo where
  symbol : String
  side : String
  entryPrice : ℚ
  markPrice : ℚ
  quantity : ℚ
  leverage : Int
  unrealizedPnL : ℚ
  unrealizedPnLPct : ℚ
  marginUsed : ℚ
  deriving DecidableEq, Repr

/-- `types.go` `Decision` (execution-status and advisory fields that no
embedded code path reads are omitted). -/
structure Decision where
  symbol : String
  action : String
  side : String
  leverage : Int
  positionSizeUSD : ℚ
  positionPercent : ℚ
  stopLoss : ℚ
  takeProfit : ℚ
  newStopLoss : ℚ
  newTakeProfit : ℚ
  closePercentage : ℚ
  reasoning : String
  deriving DecidableEq, Repr

/-- A blank decision, used to build concrete test inputs. -/
def mkDecision : Decision :=
  { symbol := "", action := "", side := "", leverage := 0, positionSizeUSD := 0,
    positionPercent := 0, stopLoss := 0, takeProfit := 0, newStopLoss := 0,
    newTakeProfit := 0, closePercentage := 0, reasoning := "" }

/-- `strategy.go` `RiskConfig`.  The Go field `MinRiskRewardRatio` is named
`minRiskReward` here. -/
structure RiskConfig where
  maxRiskPerTrade : ℚ
  maxTotalRisk : ℚ
  minRiskReward : ℚ
  fixedLeverage : Int
  maxMarginUsage : ℚ
  stopLossATRMultiple : ℚ
  deriving DecidableEq, Repr

/-- The built-in "balanced" strategy risk parameters (`strategy.go`), the
default active strategy. -/
def balancedRiskConfig : RiskConfig :=
  { maxRiskPerTrade := 25/100, maxTotalRisk := 40/100, minRiskReward := 2,
    fixedLeverage := 15, maxMarginUsage := 70/100, stopLossATRMultiple := 18/10 }

/-- Go map `map[string]*MarketData`, as an association list (first match wins). -/
def mdLookup (m : List (String × MarketData)) (sym : String) : Option MarketData :=
  (m.find? (fun kv => kv.1 = sym)).map (fun kv => kv.2)

/-- Overwrite-or-insert for an association list, mirroring a Go map store. -/
def mdSet (m : List (String × MarketData)) (sym : String) (md : MarketData) :
    List (String × MarketData) :=
  if (m.find? (fun kv => kv.1 = sym)).isSome then
    m.map (fun kv => if kv.1 = sym then (kv.1, md) else kv)
  else m ++ [(sym, md)]

/- ===== risk.go constants (the second, current version of the file) ===== -/

/-- `risk.go` `minPositionSizeGeneral` (warning only). -/
def minPositionSizeGeneral : ℚ := 12

/-- `risk.go` `safetyReserveFactor` = 0.88. -/
def safetyReserveFactor : ℚ := 88/100

/-- `risk.go` `maxRiskUsdAltPerTrade` = 12. -/
def maxRiskUsdAltPerTrade : ℚ := 12

/-- `risk.go` `maxAltMarginUsagePerTrade` = 0.40. -/
def maxAltMarginUsagePerTrade : ℚ := 40/100

/-- `risk.go` `maxRiskUsdHardPerTrade` = 50. -/
def maxRiskUsdHardPerTrade : ℚ := 50

/-- `risk.go` `minStopDistancePctFloor` = 0.18. -/
def minStopDistancePctFloor : ℚ := 18/100

/-- `risk.go` `minStopDistanceATRFactor` = 0.35. -/
def minStopDistanceATRFactor : ℚ := 35/100

/-- `risk.go` `probeRiskPct` = 0.015 (local constant of `validateDecision`). -/
def probeRiskPct : ℚ := 15/1000

/-- `risk.go` `probeMinRR` = 1.0 (local constant of `validateDecision`). -/
def probeMinRR : ℚ := 1

/- ===== error values of validateDecision, one distinct tag per Go error ===== -/

def errNoEquity : String := "account equity is zero, cannot validate an open"
def errBadPercent : String := "position_percent out of range"
def errNoAvailable : String := "no available balance for position_percent sizing"
def errBadBudget : String := "margin budget computed from position_percent is invalid"
def errSizeNonpos : String := "position size must be greater than zero"
def errMarginCap : String := "available margin cannot support the position"
def errStopsNonpos : String := "stop loss and take profit must be greater than zero"
def errLongSLTP : String := "for a long the stop loss must be below the take profit"
def errShortSLTP : String := "for a short the stop loss must be above the take profit"
def errNoEntry : String := "cannot estimate an entry price for risk assessment"
def errGlobalBudget : String := "sum of new-open risk has reached the global cap"
def errRRTooLow : String := "risk-reward too low"
def errNewStopLoss : String := "new stop loss must be greater than zero"
def errNewTakeProfit : String := "new take profit must be greater than zero"
def errClosePct : String := "close percentage must be between 0 and 100"

/- ===== validateDecision (risk.go, second version) ===== -/

/-- The canonical action whitelist `validActions` of `validateDecision`. -/
def canonicalAction (a : String) : Bool :=
  if a = "open_long" ∨ a = "open_short" ∨ a = "close_long" ∨ a = "close_short" ∨
     a = "update_stop_loss" ∨ a = "update_take_profit" ∨ a = "partial_close" ∨
     a = "hold" ∨ a = "wait" then true else false

/-- Whether an action is one of the two open actions. -/
def isOpenAction (a : String) : Bool :=
  if a = "open_long" ∨ a = "open_short" then true else false

/-- The alias pre-mapping at the top of `validateDecision`:
`increase_position` is treated as `open_long`; the unsupported limit-order
aliases are ignored as `wait`. -/
def preAlias (d : Decision) : Decision :=
  if d.action = "increase_position" then { d with action := "open_long" }
  else if d.action = "limit_order" ∨ d.action = "limit_long" ∨ d.action = "limit_short" then
    { d with action := "wait" }
  else d

/-- `isAlt` of `validateDecision`: a symbol other than BTCUSDT / ETHUSDT. -/
def isAltSymbol (s : String) : Bool :=
  if s = "BTCUSDT" ∨ s = "ETHUSDT" then false else true

/-- The forced leverage: the strategy's fixed leverage, or the safe default 15
when the configured value is not positive. -/
def forcedLeverage (cfg : RiskConfig) : Int :=
  if cfg.fixedLeverage ≤ 0 then 15 else cfg.fixedLeverage

/-- The `position_percent` sizing fallback of `validateDecision`: when no
notional is given but a relative size is, derive the notional from the
available balance, the safety reserve and the (already forced) leverage. -/
def resolveSize (cfg : RiskConfig) (acc : AccountInfo) (d : Decision) : Except String ℚ :=
  if d.positionSizeUSD ≤ 0 ∧ d.positionPercent > 0 then
    let pct := if d.positionPercent > 1 then d.positionPercent / 100 else d.positionPercent
    if pct ≤ 0 ∨ pct > 1 then .error errBadPercent
    else if acc.availableBalance ≤ 0 then .error errNoAvailable
    else
      let marginBudget := acc.availableBalance * safetyReserveFactor * pct
      if marginBudget ≤ 0 then .error errBadBudget
      else .ok (marginBudget * ((forcedLeverage cfg : Int) : ℚ))
  else .ok d.positionSizeUSD

/-- The size fallback of `validateDecision`: clamp the notional to
equity · leverage, with a 1% tolerance. -/
def capBySize (equity : ℚ) (lev : Int) (psz : ℚ) : ℚ :=
  if psz > equity * (lev : ℚ) + equity * (lev : ℚ) * (1/100) then equity * (lev : ℚ) else psz

/-- The margin fallback of `validateDecision`: when the required margin
exceeds the (altcoin-aware) per-trade margin cap, shrink the notional to the
cap, and reject only when the cap itself is not positive. -/
def marginCap (cfg : RiskConfig) (available : ℚ) (isAlt : Bool) (lev : Int) (psz : ℚ) :
    Except String ℚ :=
  if available > 0 then
    let marginRequired := psz / (lev : ℚ)
    let maxMarginPerTrade :=
      if isAlt then available * maxAltMarginUsagePerTrade * safetyReserveFactor
      else available * cfg.maxMarginUsage * safetyReserveFactor
    if marginRequired > maxMarginPerTrade then
      if maxMarginPerTrade ≤ 0 then .error errMarginCap
      else .ok (maxMarginPerTrade * (lev : ℚ))
    else .ok psz
  else .ok psz

/-- The entry-price fallback used when no positive current price is known:
20% of the way from the stop loss towards the take profit. -/
def fallbackEntry (d : Decision) : ℚ :=
  if d.action = "open_long" then d.stopLoss + (d.takeProfit - d.stopLoss) * (1/5)
  else d.stopLoss - (d.stopLoss - d.takeProfit) * (1/5)

/-- The approximate entry price of `validateDecision`: the current market
price when available and positive, otherwise the interpolation fallback. -/
def entryEstimate (mdMap : List (String × MarketData)) (d : Decision) : ℚ :=
  match mdLookup mdMap d.symbol with
  | some md => if md.currentPrice > 0 then md.currentPrice else fallbackEntry d
  | none => fallbackEntry d

/-- `riskPercent` of `validateDecision`: the price distance from entry to
stop loss, in percent, signed by side. -/
def riskPctOf (d : Decision) (entry : ℚ) : ℚ :=
  if d.action = "open_long" then (entry - d.stopLoss) / entry * 100
  else (d.stopLoss - entry) / entry * 100

/-- `rewardPercent` of `validateDecision`. -/
def rewardPctOf (d : Decision) (entry : ℚ) : ℚ :=
  if d.action = "open_long" then (d.takeProfit - entry) / entry * 100
  else (entry - d.takeProfit) / entry * 100

/-- `riskRewardRatio` of `validateDecision`: reward over risk, or 0 when the
risk percentage is not positive. -/
def rrOf (d : Decision) (entry : ℚ) : ℚ :=
  if riskPctOf d entry > 0 then rewardPctOf d entry / riskPctOf d entry else 0

/-- The two per-trade risk clamps of `validateDecision` (the percent/absolute
cap and the further altcoin cap), returning the new notional, the new
estimated risk in USD, and the new risk as a fraction of equity.  The Go code
recomputes `riskPctOfEquity` after each clamp; its final value always equals
the final estimated risk divided by equity, which is how it is written here. -/
def riskClamp (cfg : RiskConfig) (equity : ℚ) (isAlt : Bool) (r psz : ℚ) : ℚ × ℚ × ℚ :=
  let est := psz * |r| / 100
  let maxByPct := equity * cfg.maxRiskPerTrade
  let maxRisk :=
    if maxRiskUsdHardPerTrade > 0 ∧ maxByPct > maxRiskUsdHardPerTrade then
      maxRiskUsdHardPerTrade
    else maxByPct
  let step1 : ℚ × ℚ :=
    if maxRisk > 0 ∧ est > maxRisk then (maxRisk * 100 / |r|, maxRisk) else (psz, est)
  if isAlt = true ∧ maxRiskUsdAltPerTrade > 0 ∧ step1.2 > maxRiskUsdAltPerTrade then
    (maxRiskUsdAltPerTrade * 100 / |r|, maxRiskUsdAltPerTrade, maxRiskUsdAltPerTrade / equity)
  else (step1.1, step1.2, step1.2 / equity)

/-- The clamp stage of `validateDecision`: the clamps run only when the price
risk and the equity are positive; otherwise the estimated risk and the risk
fraction stay 0. -/
def riskClampStage (cfg : RiskConfig) (equity : ℚ) (isAlt : Bool) (r psz : ℚ) : ℚ × ℚ × ℚ :=
  if r > 0 ∧ equity > 0 then riskClamp cfg equity isAlt r psz else (psz, 0, 0)

/-- The global risk-budget stage of `validateDecision`: add this open's risk
fraction to the running total; when the total would exceed the cap, shrink the
open to the remaining budget, and reject when no budget remains.  Returns the
new notional, estimated risk, risk fraction, and running total. -/
def globalClamp (cfg : RiskConfig) (equity r : ℚ) (triple : ℚ × ℚ × ℚ) (tot : ℚ) :
    Except String (ℚ × ℚ × ℚ × ℚ) :=
  let psz := triple.1
  let est := triple.2.1
  let rpe := triple.2.2
  if rpe > 0 then
    let proposed := tot + rpe
    if proposed > cfg.maxTotalRisk then
      let remaining := cfg.maxTotalRisk - tot
      if remaining ≤ 0 then .error errGlobalBudget
      else .ok (remaining * equity * 100 / |r|, remaining * equity, remaining, tot + remaining)
    else .ok (psz, est, rpe, proposed)
  else .ok (psz, est, rpe, tot)

/-- `strictMinRR` of `validateDecision`: the strategy's minimum risk-reward
requirement, with the safe default 1.8 when the configured value is not
positive. -/
def strictMinRR (cfg : RiskConfig) : ℚ :=
  if cfg.minRiskReward ≤ 0 then 18/10 else cfg.minRiskReward

/-- `minRR` of `validateDecision`: the probe floor 1.0 for a positive risk
fraction of at most 1.5% of equity, the strict minimum otherwise. -/
def minRROf (cfg : RiskConfig) (rpe : ℚ) : ℚ :=
  if rpe > 0 ∧ rpe ≤ probeRiskPct then probeMinRR else strictMinRR cfg

/-- The stop-loss / take-profit side-relation check of `validateDecision`
(only ever applied to an open action). -/
def slTpBad (d : Decision) : Prop :=
  if d.action = "open_long" then d.stopLoss ≥ d.takeProfit else d.stopLoss ≤ d.takeProfit

instance (d : Decision) : Decidable (slTpBad d) := by
  unfold slTpBad; infer_instance

/-- The risk stages of the open branch of `validateDecision`: per-trade
clamps, global budget, then the two-tier risk-reward gate. -/
def openRiskStage (cfg : RiskConfig) (acc : AccountInfo) (mdMap : List (String × MarketData))
    (d : Decision) (psz : ℚ) (tot : ℚ) : Except String (Decision × ℚ) :=
  let entry := entryEstimate mdMap d
  let r := riskPctOf d entry
  match globalClamp cfg acc.totalEquity r
      (riskClampStage cfg acc.totalEquity (isAltSymbol d.symbol) r psz) tot with
  | .error e => .error e
  | .ok out =>
    if rrOf d entry < minRROf cfg out.2.2.1 then .error errRRTooLow
    else .ok ({ d with leverage := forcedLeverage cfg, positionSizeUSD := out.1 }, out.2.2.2)

/-- The open branch of `validateDecision` (`open_long` / `open_short`):
equity check, forced leverage, sizing fallbacks, stop/take checks, entry
estimation, then the risk stages.  (The Go guard `riskPercent < 0` inside the
`riskPercent > 0` branch is dead code and is not reproduced.) -/
def validateOpen (cfg : RiskConfig) (acc : AccountInfo) (mdMap : List (String × MarketData))
    (d : Decision) (tot : ℚ) : Except String (Decision × ℚ) :=
  if acc.totalEquity ≤ 0 then .error errNoEquity else
  match resolveSize cfg acc d with
  | .error e => .error e
  | .ok psz0 =>
    if psz0 ≤ 0 then .error errSizeNonpos else
    match marginCap cfg acc.availableBalance (isAltSymbol d.symbol) (forcedLeverage cfg)
        (capBySize acc.totalEquity (forcedLeverage cfg) psz0) with
    | .error e => .error e
    | .ok psz2 =>
      if d.stopLoss ≤ 0 ∨ d.takeProfit ≤ 0 then .error errStopsNonpos else
      if slTpBad d then
        if d.action = "open_long" then .error errLongSLTP else .error errShortSLTP
      else
        if entryEstimate mdMap d ≤ 0 then .error errNoEntry
        else openRiskStage cfg acc mdMap d psz2 tot

/-- The dynamic minimum stop-distance floor of `validateDecision`: at least
0.18%, raised to 35% of the 5-minute ATR (as a percentage of price) when the
ATR buffer is larger. -/
def minStopPct (md : MarketData) : ℚ :=
  let minPct := minStopDistancePctFloor
  if md.atr14_5m > 0 ∧ md.currentPrice > 0 then
    let buf := md.atr14_5m / md.currentPrice * 100 * minStopDistanceATRFactor
    if buf > minPct then buf else minPct
  else minPct

/-- The distance, in percent of the current price, between a proposed new
stop loss and the current price (direction inferred as in the source). -/
def stopDistPct (nsl cur : ℚ) : ℚ :=
  if nsl < cur then (cur - nsl) / cur * 100 else (nsl - cur) / cur * 100

/-- The non-open canonical branches of `validateDecision`:
`update_stop_loss` (with the `stop_loss` field fallback and the
downgrade-to-`hold` of a stop too close to the market),
`update_take_profit`, `partial_close`, and the parameter-free actions. -/
def validateRest (mdMap : List (String × MarketData)) (d : Decision) (tot : ℚ) :
    Except String (Decision × ℚ) :=
  if d.action = "update_stop_loss" then
    let d := if d.newStopLoss ≤ 0 ∧ d.stopLoss > 0 then { d with newStopLoss := d.stopLoss } else d
    if d.newStopLoss ≤ 0 then .error errNewStopLoss
    else
      match mdLookup mdMap d.symbol with
      | some md =>
        if md.currentPrice > 0 then
          let distPct := stopDistPct d.newStopLoss md.currentPrice
          if distPct > 0 ∧ distPct < minStopPct md then .ok ({ d with action := "hold" }, tot)
          else .ok (d, tot)
        else .ok (d, tot)
      | none => .ok (d, tot)
  else if d.action = "update_take_profit" then
    if d.newTakeProfit ≤ 0 then .error errNewTakeProfit else .ok (d, tot)
  else if d.action = "partial_close" then
    if 0 < d.closePercentage ∧ d.closePercentage ≤ 100 then .ok (d, tot)
    else if d.closePercentage ≤ 0 ∧ d.positionSizeUSD > 0 then .ok (d, tot)
    else .error errClosePct
  else .ok (d, tot)

/-- `risk.go` `validateDecision` (second version): alias pre-mapping, the
downgrade of unknown actions to `wait`, then the per-action branches.
The in-place mutation of the Go code is modelled by returning the mutated
decision together with the updated running risk total. -/
def validateDecision (cfg : RiskConfig) (acc : AccountInfo)
    (mdMap : List (String × MarketData)) (d : Decision) (tot : ℚ) :
    Except String (Decision × ℚ) :=
  let d := preAlias d
  if canonicalAction d.action then
    if isOpenAction d.action then validateOpen cfg acc mdMap d tot
    else validateRest mdMap d tot
  else .ok ({ d with action := "wait" }, tot)

/-- The recursion of `risk.go` `ValidateDecisions`: validate each decision in
order, threading the running total of new-open risk; the first error aborts. -/
def ValidateDecisionsAux (cfg : RiskConfig) (acc : AccountInfo)
    (mdMap : List (String × MarketData)) : List Decision → ℚ → Except String (List Decision × ℚ)
  | [], tot => .ok ([], tot)
  | d :: ds, tot =>
    match validateDecision cfg acc mdMap d tot with
    | .error e => .error e
    | .ok (d', tot') =>
      match ValidateDecisionsAux cfg acc mdMap ds tot' with
      | .error e => .error e
      | .ok (ds', totF) => .ok (d' :: ds', totF)

/-- `risk.go` `ValidateDecisions`: the batch fold starting from a zero risk
total. -/
def ValidateDecisions (cfg : RiskConfig) (acc : AccountInfo)
    (mdMap : List (String × MarketData)) (ds : List Decision) :
    Except String (List Decision × ℚ) :=
  ValidateDecisionsAux cfg acc mdMap ds 0

/-- The single-trade risk estimate of the claims: notional times the relative
price distance between the estimated entry and the stop loss. -/
def estRiskUsd (mdMap : List (String × MarketData)) (d : Decision) : ℚ :=
  d.positionSizeUSD * |entryEstimate mdMap d - d.stopLoss| / entryEstimate mdMap d

/- ===== main.go: normalizeDecisionActions ===== -/

/-- Overwrite-or-insert store for the symbol-to-side index, mirroring the Go
map build (`posSide[p.Symbol] = ...`); a later store for the same key wins. -/
def assocSet (m : List (String × String)) (k v : String) : List (String × String) :=
  (k, v) :: m.filter (fun kv => ¬ kv.1 = k)

/-- Lookup in the symbol-to-side index. -/
def assocLookup (m : List (String × String)) (k : String) : Option String :=
  (m.find? (fun kv => kv.1 = k)).map (fun kv => kv.2)

/-- The symbol-to-side index built by `normalizeDecisionActions` from the
current positions (positions with an empty symbol are skipped; sides are
lowercased). -/
def buildPosSide (positions : List PositionInfo) : List (String × String) :=
  positions.foldl (fun m p => if p.symbol = "" then m else assocSet m p.symbol p.side.toLower) []

/-- The per-decision rewrite of `normalizeDecisionActions`:
`close_position` is mapped through the current-position side lookup, and
`open_position` through the lowercased `side` hint; unmappable cases become
`wait`; every other action passes through unchanged. -/
def normalizeOne (posSide : List (String × String)) (d : Decision) : Decision :=
  if d.action = "close_position" then
    if d.symbol = "" then { d with action := "wait" }
    else
      match assocLookup posSide d.symbol with
      | some side =>
        if side = "long" then { d with action := "close_long" }
        else if side = "short" then { d with action := "close_short" }
        else { d with action := "wait" }
      | none => { d with action := "wait" }
  else if d.action = "open_position" then
    let side := d.side.toLower
    if side = "" then { d with action := "wait" }
    else if side = "long" ∨ side = "buy" then { d with action := "open_long" }
    else if side = "short" ∨ side = "sell" then { d with action := "open_short" }
    else { d with action := "wait" }
  else d

/-- `main.go` `normalizeDecisionActions` (the in-place slice mutation is
modelled as a map; the empty-batch early return is the map on `[]`). -/
def normalizeDecisionActions (decisions : List Decision) (positions : List PositionInfo) :
    List Decision :=
  decisions.map (normalizeOne (buildPosSide positions))

/- ===== main.go: drawdown tracking and defensive mode ===== -/

/-- The running drawdown of the main loop: `1 - equity/peak` when the peak is
positive, 0 otherwise. -/
def drawdownOf (peakEquity totalEquity : ℚ) : ℚ :=
  if peakEquity > 0 then 1 - totalEquity / peakEquity else 0

/-- The defensive-mode override of the main loop: when the peak equity is
positive and the drawdown has reached 25%, every `open_long` / `open_short`
decision is rewritten to `wait`; everything else is untouched. -/
def applyDefensiveMode (peakEquity totalEquity : ℚ) (ds : List Decision) : List Decision :=
  if peakEquity > 0 ∧ drawdownOf peakEquity totalEquity ≥ 25/100 then
    ds.map (fun d =>
      if d.action = "open_long" ∨ d.action = "open_short" then { d with action := "wait" } else d)
  else ds

/-- The decision pipeline of one main-loop cycle, from the advisor's raw
batch to the decisions handed to `ExecuteDecision`: normalization, the
defensive-mode override, risk validation, then the `wait` / `hold` filter of
the execution loop. -/
def pipelineExecuted (cfg : RiskConfig) (acc : AccountInfo)
    (mdMap : List (String × MarketData)) (positions : List PositionInfo)
    (peakEquity : ℚ) (ds : List Decision) : Except String (List Decision) :=
  let ds1 := normalizeDecisionActions ds positions
  let ds2 := applyDefensiveMode peakEquity acc.totalEquity ds1
  match ValidateDecisions cfg acc mdMap ds2 with
  | .error e => .error e
  | .ok (ds3, _) => .ok (ds3.filter (fun d => ¬ d.action = "wait" ∧ ¬ d.action = "hold"))

/- ===== main.go: enforceHardStopLoss ===== -/

/-- The hard stop-loss threshold: -30% of margin for the majors BTCUSDT and
ETHUSDT, -25% for every other symbol. -/
def hardStopThreshold (symbol : String) : ℚ :=
  if symbol = "BTCUSDT" ∨ symbol = "ETHUSDT" then -30 else -25

/-- The forced-close decision issued by the hard stop-loss sweep for one
position: a `close_short` when the lowercased side is `short`, otherwise a
`close_long`. -/
def hardStopDecision (p : PositionInfo) : Decision :=
  { mkDecision with
    symbol := p.symbol,
    action := if p.side.toLower = "short" then "close_short" else "close_long",
    reasoning := "Hard stop loss triggered by backend due to deep unrealized loss" }

/-- `main.go` `enforceHardStopLoss`: the list of forced market closes issued,
in position order.  Positions with non-negative unrealized PnL% are skipped,
then the per-class threshold is applied. -/
def enforceHardStopLoss (positions : List PositionInfo) : List Decision :=
  positions.filterMap (fun p =>
    if p.unrealizedPnLPct ≥ 0 then none
    else if p.unrealizedPnLPct ≤ hardStopThreshold p.symbol then some (hardStopDecision p)
    else none)

/- ===== simulated_exchange.go / backtest_exchange.go ===== -/

/-- The in-memory state shared by the simulated and backtest exchanges:
account, position map, market-data map, and the frozen initial equity.
(The backtest CSV data and step counter play no role in the embedded
operations and are omitted.) -/
structure ExchState where
  account : AccountInfo
  positions : List PositionInfo
  marketData : List (String × MarketData)
  initialEquity : ℚ
  deriving DecidableEq, Repr

/-- Position lookup by symbol (Go `s.positions[symbol]`). -/
def posLookup (ps : List PositionInfo) (sym : String) : Option PositionInfo :=
  ps.find? (fun p => p.symbol = sym)

/-- Position store by symbol (Go `s.positions[symbol] = pos`). -/
def posSet (ps : List PositionInfo) (p : PositionInfo) : List PositionInfo :=
  if (posLookup ps p.symbol).isSome then
    ps.map (fun q => if q.symbol = p.symbol then p else q)
  else ps ++ [p]

/-- Position delete by symbol (Go `delete(s.positions, symbol)`). -/
def posDelete (ps : List PositionInfo) (sym : String) : List PositionInfo :=
  ps.filter (fun p => ¬ p.symbol = sym)

/-- The per-position revaluation shared verbatim by
`SimulatedExchange.FetchMarketData` and `BacktestExchange.revalueAccount`:
refresh the mark price and the unrealized PnL (and PnL% when margin is
positive); a position whose symbol has no market data is left untouched. -/
def revaluePosition (mdMap : List (String × MarketData)) (p : PositionInfo) : PositionInfo :=
  match mdLookup mdMap p.symbol with
  | none => p
  | some md =>
    let mark := md.currentPrice
    let upnl :=
      if p.side = "long" then (mark - p.entryPrice) * p.quantity
      else (p.entryPrice - mark) * p.quantity
    let p := { p with markPrice := mark, unrealizedPnL := upnl }
    if p.marginUsed > 0 then { p with unrealizedPnLPct := upnl / p.marginUsed * 100 } else p

/-- Whether a position is covered by the market-data map (the Go revaluation
loops `continue` past uncovered positions, excluding them from the sums). -/
def mdCovered (mdMap : List (String × MarketData)) (p : PositionInfo) : Bool :=
  (mdLookup mdMap p.symbol).isSome

/-- The account update shared by `SimulatedExchange.FetchMarketData` and
`BacktestExchange.revalueAccount`: total the unrealized PnL and margin of the
covered positions, recompute equity, margin% and cumulative PnL. -/
def revalueAccountCore (mdMap : List (String × MarketData)) (positions : List PositionInfo)
    (acc : AccountInfo) (initialEquity : ℚ) : AccountInfo :=
  let revalued := positions.map (revaluePosition mdMap)
  let upnl := ((revalued.filter (mdCovered mdMap)).map (fun p => p.unrealizedPnL)).sum
  let margin := ((revalued.filter (mdCovered mdMap)).map (fun p => p.marginUsed)).sum
  let acc : AccountInfo := { acc with unrealizedPnL := upnl, marginUsed := margin }
  let acc : AccountInfo :=
    { acc with totalEquity := acc.availableBalance + acc.marginUsed + acc.unrealizedPnL }
  let acc : AccountInfo :=
    if acc.totalEquity > 0 then { acc with marginUsedPct := acc.marginUsed / acc.totalEquity * 100 }
    else acc
  if initialEquity > 0 then
    { acc with totalPnL := acc.totalEquity - initialEquity,
               totalPnLPct := (acc.totalEquity - initialEquity) / initialEquity * 100 }
  else acc

/-- The per-symbol price update of `SimulatedExchange.FetchMarketData`:
a fresh symbol starts at 100, a known one drifts by +0.1. -/
def simFetchMdStep (m : List (String × MarketData)) (symbol : String) :
    List (String × MarketData) :=
  let md :=
    match mdLookup m symbol with
    | some md => md
    | none => { symbol := symbol, currentPrice := 0, atr14_5m := 0 }
  let md :=
    if md.currentPrice = 0 then { md with currentPrice := 100 }
    else { md with currentPrice := md.currentPrice + 1/10 }
  mdSet m symbol md

/-- `simulated_exchange.go` `FetchMarketData`: update the synthetic prices,
revalue every covered position, and refresh the account aggregates. -/
def simFetchMarketData (symbols : List String) (s : ExchState) : ExchState :=
  let m := symbols.foldl simFetchMdStep s.marketData
  { s with marketData := m,
           positions := s.positions.map (revaluePosition m),
           account := revalueAccountCore m s.positions s.account s.initialEquity }

/-- `backtest_exchange.go` `revalueAccount`: revalue every covered position
at the current backtest market data and refresh the account aggregates. -/
def btRevalueAccount (s : ExchState) : ExchState :=
  { s with positions := s.positions.map (revaluePosition s.marketData),
           account := revalueAccountCore s.marketData s.positions s.account s.initialEquity }

def errNoMarketData : String := "no market data for symbol"
def errBadPrice : String := "invalid price for symbol"
def errInsufficientBalance : String := "insufficient balance"
def errSideConflict : String := "conflict: existing opposite position"
def errNoPositionToClose : String := "no position to close"
def errSideMismatch : String := "position side mismatch"
def errNoPositionToPartial : String := "no position to partial close"
def errNotionalNonpos : String := "cannot derive close percentage: notional not positive"
def errBadPartialNotional : String := "invalid partial close notional"
def errCloseQtyTooSmall : String := "close quantity too small"
def errBadClosePct : String := "invalid close percentage"

/-- The open branch shared by the simulated and backtest `ExecuteDecision`:
margin check, size-weighted averaging into an existing same-side position or
creation of a new one, and the balance / margin transfer. -/
def exchOpen (s : ExchState) (d : Decision) (price : ℚ) : Except String ExchState :=
  let marginRequired := d.positionSizeUSD / ((d.leverage : Int) : ℚ)
  if s.account.availableBalance < marginRequired then .error errInsufficientBalance
  else
    let quantity := d.positionSizeUSD / price
    let side := if d.action = "open_short" then "short" else "long"
    let afterPos : Except String (List PositionInfo × Int) :=
      match posLookup s.positions d.symbol with
      | some pos =>
        if ¬ pos.side = side then .error errSideConflict
        else
          let totalQty := pos.quantity + quantity
          let avgPrice := (pos.entryPrice * pos.quantity + price * quantity) / totalQty
          .ok (posSet s.positions
            { pos with entryPrice := avgPrice, quantity := totalQty,
                       marginUsed := pos.marginUsed + marginRequired, leverage := d.leverage },
            s.account.positionCount)
      | none =>
        .ok (posSet s.positions
          { symbol := d.symbol, side := side, entryPrice := price, markPrice := price,
            quantity := quantity, leverage := d.leverage, unrealizedPnL := 0,
            unrealizedPnLPct := 0, marginUsed := marginRequired },
          s.account.positionCount + 1)
    match afterPos with
    | .error e => .error e
    | .ok (ps, cnt) =>
      .ok { s with positions := ps,
                   account := { s.account with
                     positionCount := cnt,
                     availableBalance := s.account.availableBalance - marginRequired,
                     marginUsed := s.account.marginUsed + marginRequired } }

/-- The full-close branch shared by the simulated and backtest
`ExecuteDecision`: side check, realized PnL at the current price, return of
margin plus PnL to the available balance, removal of the position.  (The
trade-history record is not modelled.) -/
def exchClose (s : ExchState) (d : Decision) (price : ℚ) : Except String ExchState :=
  match posLookup s.positions d.symbol with
  | none => .error errNoPositionToClose
  | some pos =>
    let expectedSide := if d.action = "close_short" then "short" else "long"
    if ¬ pos.side = expectedSide then .error errSideMismatch
    else
      let pnl :=
        if pos.side = "long" then (price - pos.entryPrice) * pos.quantity
        else (pos.entryPrice - price) * pos.quantity
      .ok { s with positions := posDelete s.positions d.symbol,
                   account := { s.account with
                     availableBalance := s.account.availableBalance + pos.marginUsed + pnl,
                     totalPnL := s.account.totalPnL + pnl,
                     marginUsed := s.account.marginUsed - pos.marginUsed,
                     positionCount := s.account.positionCount - 1 } }

/-- `simulated_exchange.go` `ExecuteDecision`: market-data and price checks,
then the open and full-close branches.  Its action switch has no
`partial_close` case, so every other action (including `partial_close`)
falls through and succeeds without touching the state. -/
def simExecuteDecision (s : ExchState) (d : Decision) : Except String ExchState :=
  match mdLookup s.marketData d.symbol with
  | none => .error errNoMarketData
  | some md =>
    if md.currentPrice ≤ 0 then .error errBadPrice
    else if d.action = "open_long" ∨ d.action = "open_short" then
      exchOpen s d md.currentPrice
    else if d.action = "close_long" ∨ d.action = "close_short" then
      exchClose s d md.currentPrice
    else .ok s

/-- The `partial_close` branch of `backtest_exchange.go` `ExecuteDecision`:
derive the close fraction (from `close_percentage`, or from
`position_size_usd` over the current notional), close that fraction of the
quantity, return the proportional margin plus the realized PnL to the
available balance, and drop the position when nothing remains. -/
def btPartialClose (s : ExchState) (d : Decision) (price : ℚ) : Except String ExchState :=
  match posLookup s.positions d.symbol with
  | none => .error errNoPositionToPartial
  | some pos =>
    let pct0 := d.closePercentage / 100
    let pctE : Except String ℚ :=
      if pct0 ≤ 0 then
        if d.positionSizeUSD > 0 then
          let notional := pos.quantity * price
          if notional ≤ 0 then .error errNotionalNonpos
          else
            let pct := d.positionSizeUSD / notional
            if pct ≤ 0 then .error errBadPartialNotional
            else .ok (if pct > 1 then 1 else pct)
        else .error errBadClosePct
      else .ok pct0
    match pctE with
    | .error e => .error e
    | .ok pct1 =>
      let pct := if pct1 > 1 then 1 else pct1
      let closeQty := pos.quantity * pct
      if closeQty ≤ 0 then .error errCloseQtyTooSmall
      else
        let pnl :=
          if pos.side = "long" then (price - pos.entryPrice) * closeQty
          else (pos.entryPrice - price) * closeQty
        let closedMargin := pos.marginUsed * pct
        let accMargin := s.account.marginUsed - closedMargin
        let accMargin := if accMargin < 0 then 0 else accMargin
        let pos' := { pos with quantity := pos.quantity - closeQty,
                               marginUsed :=
                                 if pos.marginUsed - closedMargin < 0 then 0
                                 else pos.marginUsed - closedMargin }
        let removed := pos'.quantity ≤ 0 ∨ pos'.marginUsed = 0
        .ok { s with
          positions := if removed then posDelete s.positions d.symbol else posSet s.positions pos',
          account := { s.account with
            availableBalance := s.account.availableBalance + closedMargin + pnl,
            totalPnL := s.account.totalPnL + pnl,
            marginUsed := accMargin,
            positionCount :=
              if removed then s.account.positionCount - 1 else s.account.positionCount } }

/-- `backtest_exchange.go` `ExecuteDecision`: like the simulated exchange but
with a real `partial_close` branch; every other action is ignored in the
current version. -/
def btExecuteDecision (s : ExchState) (d : Decision) : Except String ExchState :=
  match mdLookup s.marketData d.symbol with
  | none => .error errNoMarketData
  | some md =>
    if md.currentPrice ≤ 0 then .error errBadPrice
    else if d.action = "open_long" ∨ d.action = "open_short" then
      exchOpen s d md.currentPrice
    else if d.action = "close_long" ∨ d.action = "close_short" then
      exchClose s d md.currentPrice
    else if d.action = "partial_close" then
      btPartialClose s d md.currentPrice
    else .ok s

/- ===== brain.go: parseAIResponse ===== -/

/-- `types.go` `FullDecision` (timestamp omitted). -/
structure FullDecision where
  systemPrompt : String
  userPrompt : String
  cotTrace : String
  decisions : List Decision
  deriving DecidableEq, Repr

def lbrackChar : Char := Char.ofNat 91
def lbraceChar : Char := Char.ofNat 123
def tildeChar : Char := Char.ofNat 126

/-- `brain.go` `removeInvisibleRunes`: strip the zero-width code points and
the BOM. -/
def removeInvisibleRunes (s : String) : String :=
  String.mk (s.data.filter (fun c =>
    ¬ (c = Char.ofNat 0x200B ∨ c = Char.ofNat 0x200C ∨ c = Char.ofNat 0x200D ∨
       c = Char.ofNat 0xFEFF)))

/-- `brain.go` `fixMissingQuotes`: fold curly quotes and full-width
punctuation to their ASCII forms. -/
def fixMissingQuotes (jsonStr : String) : String :=
  let s := jsonStr.replace "“" "\""
  let s := s.replace "”" "\""
  let s := s.replace "‘" "\x27"
  let s := s.replace "’" "\x27"
  let s := s.replace "［" "["
  let s := s.replace "］" "]"
  let s := s.replace "｛" "\x7b"
  let s := s.replace "｝" "\x7d"
  let s := s.replace "：" ":"
  let s := s.replace "，" ","
  let s := s.replace "【" "["
  let s := s.replace "】" "]"
  let s := s.replace "、" ","
  s.replace "　" " "

/-- `brain.go` `compactArrayOpen`: rewrite a leading bracket-space-brace to
bracket-brace on the trimmed string. -/
def compactArrayOpen (s : String) : String :=
  let t := s.trim
  match t.data with
  | c :: rest =>
    if c = lbrackChar then
      let ws := rest.takeWhile Char.isWhitespace
      match rest.dropWhile Char.isWhitespace with
      | c2 :: tail =>
        if ¬ ws = [] ∧ c2 = lbraceChar then String.mk (lbrackChar :: lbraceChar :: tail) else t
      | [] => t
    else t
  | [] => t

/-- The `reArrayHead` test of `brain.go`: the string opens with a bracket,
optional whitespace, then a brace. -/
def reArrayHeadMatch (s : String) : Bool :=
  match s.data with
  | c :: rest =>
    if c = lbrackChar then
      match rest.dropWhile Char.isWhitespace with
      | c2 :: _ => if c2 = lbraceChar then true else false
      | [] => false
    else false
  | [] => false

/-- `brain.go` `validateJSONFormat`: require the array-of-objects head shape
and forbid the range symbol.  (The Go code inspects the first 20 bytes; the
first 20 characters are inspected here.) -/
def validateJSONFormat (jsonStr : String) : Except String Unit :=
  let trimmed := jsonStr.trim
  if ¬ reArrayHeadMatch trimmed then
    match trimmed.data with
    | c :: _ =>
      if c = lbrackChar ∧ ¬ (trimmed.data.take 20).contains lbraceChar then
        .error "invalid decision array (must contain objects)"
      else .error "JSON must start with an array of objects"
    | [] => .error "JSON must start with an array of objects"
  else if jsonStr.data.contains tildeChar then .error "JSON cannot contain range symbol"
  else .ok ()

/-- The index (-1 when absent) of the first occurrence of a pattern in a
character list. -/
def subIndexAux (pat : List Char) : List Char → Nat → Option Nat
  | [], i => if pat = [] then some i else none
  | c :: t, i => if pat.isPrefixOf (c :: t) then some i else subIndexAux pat t (i + 1)

/-- Go `strings.Index` (character positions rather than byte positions; the
parser only ever compares the result with 0, for which the two agree). -/
def strIndexOf (s sub : String) : Int :=
  match subIndexAux sub.data s.data 0 with
  | some i => (i : Int)
  | none => -1

/-- Go slicing `s[:n]` (by characters). -/
def strTakeChars (s : String) (n : Int) : String :=
  String.mk (s.data.take n.toNat)

/-- The regex-based extraction helpers of `brain.go` and `json.Unmarshal`,
abstracted as parameters: `reasoningTagContent` is
`extractTagContent(resp, "reasoning")` (trimmed content, or empty when the
tags are absent), `decisionTagContent` / `jsonFenceContent` are the submatch
of `reDecisionTag` / `reJSONFence`, `jsonArrayFind` is
`reJSONArray.FindString` (empty when no match), and `unmarshalDecisions` is
`json.Unmarshal` into `[]Decision` (`none` on a parse error).  The parser
theorems hold for every behaviour of these helpers. -/
structure ParserPrims where
  reasoningTagContent : String → String
  decisionTagContent : String → Option String
  jsonFenceContent : String → Option String
  jsonArrayFind : String → String
  unmarshalDecisions : String → Option (List Decision)

/-- The reasoning extraction of `parseAIResponse`, before the final trim:
tag content when present, otherwise the prefix before a decision tag or a
fenced block, otherwise the whole response. -/
def rawReasoning (pr : ParserPrims) (response : String) : String :=
  let r0 := pr.reasoningTagContent response
  if r0 = "" then
    let di := strIndexOf response ("<decision>")
    if di > 0 then strTakeChars response di
    else
      let ji := strIndexOf response ("```json")
      if ji > 0 then strTakeChars response ji else response
  else r0

/-- The decision-body extraction of `parseAIResponse`: clean and repair the
response, prefer the decision-tag content, then a fenced json array,
otherwise the first array-of-objects substring. -/
def extractedJSON (pr : ParserPrims) (response : String) : String :=
  let s1 := (removeInvisibleRunes response).trim
  let s2 := fixMissingQuotes s1
  let jsonPart :=
    match pr.decisionTagContent s2 with
    | some m => m.trim
    | none => s2
  let jsonPart2 := fixMissingQuotes jsonPart
  match pr.jsonFenceContent jsonPart2 with
  | some m => m.trim
  | none => (pr.jsonArrayFind jsonPart2).trim

/-- The compacted and re-repaired decision body, as handed to the format
validator and to `json.Unmarshal`. -/
def repairedJSON (pr : ParserPrims) (response : String) : String :=
  fixMissingQuotes (compactArrayOpen (extractedJSON pr response))

/-- The decision list produced by `parseAIResponse`: empty when no body was
extracted, when the format validation fails, or when unmarshalling fails. -/
def parsedDecisions (pr : ParserPrims) (response : String) : List Decision :=
  let jc := extractedJSON pr response
  if ¬ jc = "" then
    match validateJSONFormat (repairedJSON pr response) with
    | .error _ => []
    | .ok _ =>
      match pr.unmarshalDecisions (repairedJSON pr response) with
      | some ds => ds
      | none => []
  else []

/-- `brain.go` `parseAIResponse`: always returns a decision record and a nil
error; a failed parse keeps the reasoning (with a fixed fallback text when
even the reasoning is empty) and an empty decision list. -/
def parseAIResponse (pr : ParserPrims) (response : String) : Except String FullDecision :=
  let reasoning := (rawReasoning pr response).trim
  let decisions := parsedDecisions pr response
  let reasoning :=
    if decisions = [] ∧ reasoning = "" then "Failed to parse AI response." else reasoning
  .ok { systemPrompt := "", userPrompt := "", cotTrace := reasoning, decisions := decisions }

/-- A degenerate instantiation of the abstract helpers, used to exercise the
parser theorems on concrete input. -/
def trivialPrims : ParserPrims :=
  { reasoningTagContent := fun _ => "",
    decisionTagContent := fun _ => none,
    jsonFenceContent := fun _ => none,
    jsonArrayFind := fun _ => "",
    unmarshalDecisions := fun _ => none }

/- ===================================================================== -/
/- ========================= helper lemmas ============================= -/
/- ===================================================================== -/

theorem forcedLeverage_pos (cfg : RiskConfig) : 0 < forcedLeverage cfg := by
  unfold forcedLeverage
  split_ifs with h
  · norm_num
  · omega

theorem strictMinRR_pos (cfg : RiskConfig) : 0 < strictMinRR cfg := by
  unfold strictMinRR
  split_ifs with h
  · norm_num
  · linarith [lt_of_not_le (by exact_mod_cast h : ¬ cfg.minRiskReward ≤ 0)]

/-- The fields read by the risk formulas are untouched by the final record
update of the open branch. -/
theorem entryEstimate_update (mdMap : List (String × MarketData)) (d : Decision) (l : Int)
    (p : ℚ) :
    entryEstimate mdMap { d with leverage := l, positionSizeUSD := p } = entryEstimate mdMap d :=
  rfl

theorem riskPctOf_update (d : Decision) (l : Int) (p e : ℚ) :
    riskPctOf { d with leverage := l, positionSizeUSD := p } e = riskPctOf d e := rfl

theorem rrOf_update (d : Decision) (l : Int) (p e : ℚ) :
    rrOf { d with leverage := l, positionSizeUSD := p } e = rrOf d e := rfl

/-- The claim-level risk formula agrees with the code's
`notional · |riskPercent| / 100` whenever the entry estimate is positive. -/
theorem estRiskUsd_eq (mdMap : List (String × MarketData)) (d : Decision)
    (h : 0 < entryEstimate mdMap d) :
    estRiskUsd mdMap d =
      d.positionSizeUSD * |riskPctOf d (entryEstimate mdMap d)| / 100 := by
  unfold estRiskUsd riskPctOf
  have hne : entryEstimate mdMap d ≠ 0 := ne_of_gt h
  have habs : |entryEstimate mdMap d| = entryEstimate mdMap d := abs_of_pos h
  split_ifs with hact
  · rw [abs_mul, abs_div, habs]
    rw [show |(100:ℚ)| = 100 by norm_num]
    field_simp
    ring
  · rw [abs_mul, abs_div, habs]
    rw [show |(100:ℚ)| = 100 by norm_num]
    rw [abs_sub_comm d.stopLoss (entryEstimate mdMap d)]
    field_simp
    ring

/-- Specification of the two per-trade risk clamps: the estimated risk stays
tied to the clamped notional, becomes bounded by the percent/absolute cap and
(for altcoins) by the altcoin cap, and the risk fraction is risk over equity. -/
theorem riskClamp_spec (cfg : RiskConfig) (equity : ℚ) (isAlt : Bool) (r psz : ℚ)
    (hEq : 0 < equity) (hρ : 0 < cfg.maxRiskPerTrade) (hr : 0 < r) (hpsz : 0 < psz) :
    (riskClamp cfg equity isAlt r psz).2.1 =
        (riskClamp cfg equity isAlt r psz).1 * |r| / 100 ∧
    0 < (riskClamp cfg equity isAlt r psz).2.1 ∧
    (riskClamp cfg equity isAlt r psz).2.1 ≤
        min (equity * cfg.maxRiskPerTrade) maxRiskUsdHardPerTrade ∧
    (isAlt = true → (riskClamp cfg equity isAlt r psz).2.1 ≤ maxRiskUsdAltPerTrade) ∧
    (riskClamp cfg equity isAlt r psz).2.2 =
        (riskClamp cfg equity isAlt r psz).2.1 / equity := by
  have habs : |r| = r := abs_of_pos hr
  have hrne : r ≠ 0 := ne_of_gt hr
  unfold riskClamp
  simp only [habs, maxRiskUsdHardPerTrade, maxRiskUsdAltPerTrade]
  split_ifs with h1 h2 h3 h4 h5 h6
  all_goals simp_all
  all_goals (try constructor) <;> linarith

/-- On success the global budget stage keeps the risk tied to the notional,
never increases it, adds exactly the resulting risk fraction to the running
total, and keeps that total within the cap. -/
theorem globalClamp_ok_spec (cfg : RiskConfig) (equity r psz est rpe tot : ℚ)
    (out : ℚ × ℚ × ℚ × ℚ)
    (hEq : 0 < equity) (hr : 0 < r) (hest : est = psz * |r| / 100) (hrpe : rpe = est / equity)
    (hestpos : 0 < est) (htot : tot ≤ cfg.maxTotalRisk)
    (h : globalClamp cfg equity r (psz, est, rpe) tot = .ok out) :
    out.2.1 = out.1 * |r| / 100 ∧ 0 < out.2.1 ∧ out.2.1 ≤ est ∧
    out.2.2.1 = out.2.1 / equity ∧ out.2.2.2 = tot + out.2.2.1 ∧
    out.2.2.2 ≤ cfg.maxTotalRisk := by
  have habs : |r| = r := abs_of_pos hr
  have hrne : r ≠ 0 := ne_of_gt hr
  have hrpepos : 0 < rpe := by rw [hrpe]; positivity
  have hEqne : equity ≠ 0 := ne_of_gt hEq
  rw [habs] at hest
  unfold globalClamp at h
  simp only at h
  rw [if_pos hrpepos] at h
  by_cases hex : tot + rpe > cfg.maxTotalRisk
  · rw [if_pos hex] at h
    have hrm2 : cfg.maxTotalRisk - tot < rpe := by linarith
    by_cases hrem : cfg.maxTotalRisk - tot ≤ 0
    · rw [if_pos hrem] at h
      exact absurd h (by simp)
    · rw [if_neg hrem] at h
      have hrmpos : 0 < cfg.maxTotalRisk - tot := lt_of_not_le hrem
      injection h with hout
      subst hout
      refine ⟨?_, ?_, ?_, ?_, ?_, ?_⟩
      · show (cfg.maxTotalRisk - tot) * equity =
          (cfg.maxTotalRisk - tot) * equity * 100 / |r| * |r| / 100
        rw [habs]
        field_simp
      · show 0 < (cfg.maxTotalRisk - tot) * equity
        positivity
      · show (cfg.maxTotalRisk - tot) * equity ≤ est
        have hlt : (cfg.maxTotalRisk - tot) * equity < rpe * equity :=
          mul_lt_mul_of_pos_right hrm2 hEq
        have hre : rpe * equity = est := by rw [hrpe]; field_simp
        linarith
      · show cfg.maxTotalRisk - tot = (cfg.maxTotalRisk - tot) * equity / equity
        rw [mul_div_cancel_right₀ _ hEqne]
      · show tot + (cfg.maxTotalRisk - tot) = tot + (cfg.maxTotalRisk - tot)
        rfl
      · show tot + (cfg.maxTotalRisk - tot) ≤ cfg.maxTotalRisk
        linarith
  · rw [if_neg hex] at h
    injection h with hout
    subst hout
    exact ⟨by rw [habs]; exact hest, hestpos, le_refl est, hrpe, rfl, le_of_not_lt hex⟩

/-- The global budget stage rejects only with the budget-exhausted error, and
only when the running total has already reached the cap. -/
theorem globalClamp_error (cfg : RiskConfig) (equity r : ℚ) (triple : ℚ × ℚ × ℚ) (tot : ℚ)
    (e : String) (h : globalClamp cfg equity r triple tot = .error e) :
    e = errGlobalBudget ∧ cfg.maxTotalRisk ≤ tot := by
  unfold globalClamp at h
  simp only at h
  split_ifs at h with hp hex hrem
  all_goals first
  | (simp only [Except.error.injEq] at h
     exact ⟨h.symm, by linarith⟩)
  | exact absurd h (by simp)

/-- A successful sizing resolution produces either the given notional or a
positive margin-budget-derived one. -/
theorem resolveSize_ok (cfg : RiskConfig) (acc : AccountInfo) (d : Decision) (psz : ℚ)
    (h : resolveSize cfg acc d = .ok psz) :
    psz = d.positionSizeUSD ∨ 0 < psz := by
  unfold resolveSize at h
  by_cases h1 : d.positionSizeUSD ≤ 0 ∧ d.positionPercent > 0
  · rw [if_pos h1] at h
    simp only at h
    split_ifs at h
    all_goals try split_ifs at h
    all_goals first
    | exact Except.noConfusion h
    | (simp only [Except.ok.injEq] at h
       subst h
       right
       have hl : (0:ℚ) < ((forcedLeverage cfg : Int) : ℚ) := by
         exact_mod_cast forcedLeverage_pos cfg
       refine mul_pos (lt_of_not_le ?_) hl
       assumption)
  · rw [if_neg h1] at h
    simp only [Except.ok.injEq] at h
    exact Or.inl h.symm

theorem resolveSize_error (cfg : RiskConfig) (acc : AccountInfo) (d : Decision) (e : String)
    (h : resolveSize cfg acc d = .error e) :
    e = errBadPercent ∨ e = errNoAvailable ∨ e = errBadBudget := by
  unfold resolveSize at h
  simp only at h
  split_ifs at h
  all_goals try split_ifs at h
  all_goals first
  | exact Except.noConfusion h
  | (simp only [Except.error.injEq] at h
     simp [h.symm])

/-- The size cap keeps a positive notional positive (with positive equity and
leverage). -/
theorem capBySize_pos (equity : ℚ) (lev : Int) (psz : ℚ)
    (hEq : 0 < equity) (hlev : 0 < lev) (hpsz : 0 < psz) :
    0 < capBySize equity lev psz := by
  unfold capBySize
  have hl : (0:ℚ) < (lev : ℚ) := by exact_mod_cast hlev
  split_ifs
  · positivity
  · exact hpsz

/-- A successful margin cap keeps a positive notional positive. -/
theorem marginCap_ok_pos (cfg : RiskConfig) (available : ℚ) (isAlt : Bool) (lev : Int)
    (psz psz' : ℚ) (hlev : 0 < lev) (hpsz : 0 < psz)
    (h : marginCap cfg available isAlt lev psz = .ok psz') : 0 < psz' := by
  unfold marginCap at h
  have hl : (0:ℚ) < (lev : ℚ) := by exact_mod_cast hlev
  by_cases h1 : available > 0
  · rw [if_pos h1] at h
    simp only at h
    split_ifs at h
    all_goals try split_ifs at h
    all_goals first
    | exact Except.noConfusion h
    | (simp only [Except.ok.injEq] at h
       subst h
       first
       | exact hpsz
       | (refine mul_pos (lt_of_not_le ?_) hl
          assumption))
  · rw [if_neg h1] at h
    simp only [Except.ok.injEq] at h
    subst h
    exact hpsz

theorem marginCap_error (cfg : RiskConfig) (available : ℚ) (isAlt : Bool) (lev : Int)
    (psz : ℚ) (e : String) (h : marginCap cfg available isAlt lev psz = .error e) :
    e = errMarginCap := by
  unfold marginCap at h
  simp only at h
  split_ifs at h
  all_goals try split_ifs at h
  all_goals first
  | exact Except.noConfusion h
  | (simp only [Except.error.injEq] at h
     exact h.symm)

theorem minRROf_of_le (cfg : RiskConfig) (rpe : ℚ) (h0 : 0 < rpe) (h1 : rpe ≤ probeRiskPct) :
    minRROf cfg rpe = probeMinRR := by
  unfold minRROf
  rw [if_pos ⟨h0, h1⟩]

theorem minRROf_of_gt (cfg : RiskConfig) (rpe : ℚ) (h1 : probeRiskPct < rpe) :
    minRROf cfg rpe = strictMinRR cfg := by
  unfold minRROf
  rw [if_neg]
  rintro ⟨-, h2⟩
  exact absurd h1 (not_lt_of_le h2)

/-- On success the open risk stage guarantees a positive price risk, ties the
final notional to the claimed bounds on the estimated risk, advances the
running total by exactly this open's risk fraction while keeping it within
the cap, and enforces the two-tier risk-reward gate. -/
theorem openRiskStage_ok (cfg : RiskConfig) (acc : AccountInfo)
    (mdMap : List (String × MarketData)) (d : Decision) (psz tot : ℚ)
    (d' : Decision) (tot' : ℚ)
    (hEq : 0 < acc.totalEquity) (hρ : 0 < cfg.maxRiskPerTrade) (hpsz : 0 < psz)
    (htot : tot ≤ cfg.maxTotalRisk)
    (h : openRiskStage cfg acc mdMap d psz tot = .ok (d', tot')) :
    0 < riskPctOf d (entryEstimate mdMap d) ∧
    ∃ psz', d' = { d with leverage := forcedLeverage cfg, positionSizeUSD := psz' } ∧
      0 < psz' ∧
      0 < psz' * |riskPctOf d (entryEstimate mdMap d)| / 100 ∧
      psz' * |riskPctOf d (entryEstimate mdMap d)| / 100 ≤
        min (acc.totalEquity * cfg.maxRiskPerTrade) maxRiskUsdHardPerTrade ∧
      (isAltSymbol d.symbol = true →
        psz' * |riskPctOf d (entryEstimate mdMap d)| / 100 ≤ maxRiskUsdAltPerTrade) ∧
      tot' = tot + psz' * |riskPctOf d (entryEstimate mdMap d)| / 100 / acc.totalEquity ∧
      tot' ≤ cfg.maxTotalRisk ∧
      (psz' * |riskPctOf d (entryEstimate mdMap d)| / 100 / acc.totalEquity ≤ probeRiskPct →
        probeMinRR ≤ rrOf d (entryEstimate mdMap d)) ∧
      (probeRiskPct < psz' * |riskPctOf d (entryEstimate mdMap d)| / 100 / acc.totalEquity →
        strictMinRR cfg ≤ rrOf d (entryEstimate mdMap d)) := by
  unfold openRiskStage at h
  simp only at h
  by_cases hr : 0 < riskPctOf d (entryEstimate mdMap d)
  · refine ⟨hr, ?_⟩
    have hstage : riskClampStage cfg acc.totalEquity (isAltSymbol d.symbol)
        (riskPctOf d (entryEstimate mdMap d)) psz =
        riskClamp cfg acc.totalEquity (isAltSymbol d.symbol)
          (riskPctOf d (entryEstimate mdMap d)) psz := by
      unfold riskClampStage
      rw [if_pos ⟨hr, hEq⟩]
    rw [hstage] at h
    have hclamp := riskClamp_spec cfg acc.totalEquity (isAltSymbol d.symbol)
      (riskPctOf d (entryEstimate mdMap d)) psz hEq hρ hr hpsz
    rcases htrip : riskClamp cfg acc.totalEquity (isAltSymbol d.symbol)
        (riskPctOf d (entryEstimate mdMap d)) psz with ⟨psz3, est3, rpe3⟩
    rw [htrip] at h hclamp
    simp only at hclamp
    obtain ⟨e1, e2, e3, e4, e5⟩ := hclamp
    cases hg : globalClamp cfg acc.totalEquity (riskPctOf d (entryEstimate mdMap d))
        (psz3, est3, rpe3) tot with
    | error e =>
      rw [hg] at h
      simp only at h
      exact Except.noConfusion h
    | ok out =>
      rw [hg] at h
      simp only at h
      obtain ⟨g1, g2, g3, g4, g5, g6⟩ := globalClamp_ok_spec cfg acc.totalEquity
        (riskPctOf d (entryEstimate mdMap d)) psz3 est3 rpe3 tot out hEq hr e1 e5 e2 htot hg
      by_cases hrr : rrOf d (entryEstimate mdMap d) < minRROf cfg out.2.2.1
      · rw [if_pos hrr] at h
        exact Except.noConfusion h
      · rw [if_neg hrr] at h
        injection h with hpair
        have hd' : d' = { d with leverage := forcedLeverage cfg, positionSizeUSD := out.1 } := by
          have := congrArg Prod.fst hpair
          simpa using this.symm
        have htot' : tot' = out.2.2.2 := by
          have := congrArg Prod.snd hpair
          simpa using this.symm
        refine ⟨out.1, hd', ?_, ?_, ?_, ?_, ?_, ?_, ?_, ?_⟩
        · -- 0 < out.1 from 0 < out.2.1 = out.1 * |r| / 100
          by_contra hneg
          push_neg at hneg
          have : out.1 * |riskPctOf d (entryEstimate mdMap d)| / 100 ≤ 0 := by
            have habs : (0:ℚ) ≤ |riskPctOf d (entryEstimate mdMap d)| := abs_nonneg _
            have := mul_nonpos_of_nonpos_of_nonneg hneg habs
            linarith
          rw [← g1] at this
          linarith
        · rw [← g1]; exact g2
        · rw [← g1]; exact le_trans g3 e3
        · intro halt
          rw [← g1]
          exact le_trans g3 (e4 halt)
        · rw [htot', g5, g4, g1]
        · rw [htot']; exact g6
        · intro hle
          have h0' : 0 < out.2.2.1 := by
            rw [g4]
            exact div_pos g2 hEq
          have h1' : out.2.2.1 ≤ probeRiskPct := by
            rw [g4, g1]
            exact hle
          rw [minRROf_of_le cfg out.2.2.1 h0' h1'] at hrr
          exact le_of_not_lt hrr
        · intro hgt
          have h1' : probeRiskPct < out.2.2.1 := by
            rw [g4, g1]
            exact hgt
          rw [minRROf_of_gt cfg out.2.2.1 h1'] at hrr
          exact le_of_not_lt hrr
  · -- a non-positive price risk forces a zero risk-reward, which the gate
    -- rejects, contradicting success
    exfalso
    have hstage : riskClampStage cfg acc.totalEquity (isAltSymbol d.symbol)
        (riskPctOf d (entryEstimate mdMap d)) psz = (psz, 0, 0) := by
      unfold riskClampStage
      rw [if_neg]
      rintro ⟨hr', -⟩
      exact hr hr'
    rw [hstage] at h
    have hglob : globalClamp cfg acc.totalEquity (riskPctOf d (entryEstimate mdMap d))
        (psz, 0, 0) tot = .ok (psz, 0, 0, tot) := by
      unfold globalClamp
      norm_num
    rw [hglob] at h
    simp only at h
    have hrr0 : rrOf d (entryEstimate mdMap d) = 0 := by
      unfold rrOf
      rw [if_neg hr]
    have hmin : minRROf cfg (psz, (0:ℚ), (0:ℚ), tot).2.2.1 = strictMinRR cfg := by
      unfold minRROf
      norm_num
    rw [if_pos] at h
    · exact Except.noConfusion h
    · rw [hrr0, hmin]
      exact strictMinRR_pos cfg

/-- Success specification of the whole open branch of `validateDecision`:
positivity of equity, entry and price risk, the shape of the mutated
decision, and all the risk bounds of the claims. -/
theorem validateOpen_ok (cfg : RiskConfig) (acc : AccountInfo)
    (mdMap : List (String × MarketData)) (d : Decision) (tot : ℚ) (d' : Decision) (tot' : ℚ)
    (hρ : 0 < cfg.maxRiskPerTrade) (htot : tot ≤ cfg.maxTotalRisk)
    (h : validateOpen cfg acc mdMap d tot = .ok (d', tot')) :
    0 < acc.totalEquity ∧
    0 < entryEstimate mdMap d ∧
    0 < riskPctOf d (entryEstimate mdMap d) ∧
    ∃ psz', d' = { d with leverage := forcedLeverage cfg, positionSizeUSD := psz' } ∧
      0 < psz' ∧
      0 < psz' * |riskPctOf d (entryEstimate mdMap d)| / 100 ∧
      psz' * |riskPctOf d (entryEstimate mdMap d)| / 100 ≤
        min (acc.totalEquity * cfg.maxRiskPerTrade) maxRiskUsdHardPerTrade ∧
      (isAltSymbol d.symbol = true →
        psz' * |riskPctOf d (entryEstimate mdMap d)| / 100 ≤ maxRiskUsdAltPerTrade) ∧
      tot' = tot + psz' * |riskPctOf d (entryEstimate mdMap d)| / 100 / acc.totalEquity ∧
      tot' ≤ cfg.maxTotalRisk ∧
      (psz' * |riskPctOf d (entryEstimate mdMap d)| / 100 / acc.totalEquity ≤ probeRiskPct →
        probeMinRR ≤ rrOf d (entryEstimate mdMap d)) ∧
      (probeRiskPct < psz' * |riskPctOf d (entryEstimate mdMap d)| / 100 / acc.totalEquity →
        strictMinRR cfg ≤ rrOf d (entryEstimate mdMap d)) := by
  unfold validateOpen at h
  by_cases hEq : acc.totalEquity ≤ 0
  · rw [if_pos hEq] at h
    exact Except.noConfusion h
  rw [if_neg hEq] at h
  have hEq' : 0 < acc.totalEquity := lt_of_not_le hEq
  cases hres : resolveSize cfg acc d with
  | error e =>
    rw [hres] at h
    exact Except.noConfusion h
  | ok psz0 =>
    rw [hres] at h
    simp only at h
    by_cases hp0 : psz0 ≤ 0
    · rw [if_pos hp0] at h
      exact Except.noConfusion h
    rw [if_neg hp0] at h
    have hp0' : 0 < psz0 := lt_of_not_le hp0
    have hcap : 0 < capBySize acc.totalEquity (forcedLeverage cfg) psz0 :=
      capBySize_pos _ _ _ hEq' (forcedLeverage_pos cfg) hp0'
    cases hmc : marginCap cfg acc.availableBalance (isAltSymbol d.symbol) (forcedLeverage cfg)
        (capBySize acc.totalEquity (forcedLeverage cfg) psz0) with
    | error e =>
      rw [hmc] at h
      exact Except.noConfusion h
    | ok psz2 =>
      rw [hmc] at h
      simp only at h
      have hp2 : 0 < psz2 :=
        marginCap_ok_pos cfg acc.availableBalance (isAltSymbol d.symbol) (forcedLeverage cfg)
          (capBySize acc.totalEquity (forcedLeverage cfg) psz0) psz2
          (forcedLeverage_pos cfg) hcap hmc
      by_cases hst : d.stopLoss ≤ 0 ∨ d.takeProfit ≤ 0
      · rw [if_pos hst] at h
        exact Except.noConfusion h
      rw [if_neg hst] at h
      by_cases hbad : slTpBad d
      · rw [if_pos hbad] at h
        split_ifs at h
        all_goals exact Except.noConfusion h
      rw [if_neg hbad] at h
      by_cases hent : entryEstimate mdMap d ≤ 0
      · rw [if_pos hent] at h
        exact Except.noConfusion h
      rw [if_neg hent] at h
      obtain ⟨hr, spec⟩ := openRiskStage_ok cfg acc mdMap d psz2 tot d' tot' hEq' hρ hp2 htot h
      exact ⟨hEq', lt_of_not_le hent, hr, spec⟩

theorem ok_pair_inj {α β : Type} {a a' : α} {b b' : β}
    (h : (Except.ok (a, b) : Except String (α × β)) = Except.ok (a', b')) :
    a = a' ∧ b = b' := by
  injection h with h1
  exact ⟨congrArg Prod.fst h1, congrArg Prod.snd h1⟩

/-- The non-open branches never change the running risk total, and change
the action only by downgrading a too-close stop update to `hold`. -/
theorem validateRest_ok (mdMap : List (String × MarketData)) (d : Decision) (tot : ℚ)
    (d' : Decision) (tot' : ℚ) (h : validateRest mdMap d tot = .ok (d', tot')) :
    tot' = tot ∧ (d'.action = d.action ∨ d'.action = "hold") ∧ d'.symbol = d.symbol := by
  unfold validateRest at h
  by_cases h1 : d.action = "update_stop_loss"
  · rw [if_pos h1] at h
    simp only at h
    set d2 : Decision :=
      if d.newStopLoss ≤ 0 ∧ d.stopLoss > 0 then { d with newStopLoss := d.stopLoss } else d
      with hd2
    have hact2 : d2.action = d.action := by
      rw [hd2]
      split_ifs <;> rfl
    have hsym2 : d2.symbol = d.symbol := by
      rw [hd2]
      split_ifs <;> rfl
    by_cases h2 : d2.newStopLoss ≤ 0
    · rw [if_pos h2] at h
      exact Except.noConfusion h
    rw [if_neg h2] at h
    cases hmd : mdLookup mdMap d2.symbol with
    | none =>
      rw [hmd] at h
      obtain ⟨ha, hb⟩ := ok_pair_inj h
      exact ⟨hb.symm, Or.inl (ha ▸ hact2), ha ▸ hsym2⟩
    | some md =>
      rw [hmd] at h
      simp only at h
      by_cases h3 : md.currentPrice > 0
      · rw [if_pos h3] at h
        split_ifs at h with h4
        · obtain ⟨ha, hb⟩ := ok_pair_inj h
          refine ⟨hb.symm, Or.inr ?_, ?_⟩
          · rw [← ha]
          · rw [← ha]
            exact hsym2
        · obtain ⟨ha, hb⟩ := ok_pair_inj h
          exact ⟨hb.symm, Or.inl (ha ▸ hact2), ha ▸ hsym2⟩
      · rw [if_neg h3] at h
        obtain ⟨ha, hb⟩ := ok_pair_inj h
        exact ⟨hb.symm, Or.inl (ha ▸ hact2), ha ▸ hsym2⟩
  · rw [if_neg h1] at h
    split_ifs at h
    all_goals first
    | exact Except.noConfusion h
    | (obtain ⟨ha, hb⟩ := ok_pair_inj h
       exact ⟨hb.symm, Or.inl (ha ▸ rfl), ha ▸ rfl⟩)

theorem validateRest_error (mdMap : List (String × MarketData)) (d : Decision) (tot : ℚ)
    (e : String) (h : validateRest mdMap d tot = .error e) :
    e = errNewStopLoss ∨ e = errNewTakeProfit ∨ e = errClosePct := by
  unfold validateRest at h
  by_cases h1 : d.action = "update_stop_loss"
  · rw [if_pos h1] at h
    simp only at h
    split_ifs at h
    all_goals try split at h
    all_goals try split_ifs at h
    all_goals first
    | exact Except.noConfusion h
    | (simp only [Except.error.injEq] at h
       simp [h.symm])
  · rw [if_neg h1] at h
    split_ifs at h
    all_goals first
    | exact Except.noConfusion h
    | (simp only [Except.error.injEq] at h
       simp [h.symm])

theorem openRiskStage_ok_action (cfg : RiskConfig) (acc : AccountInfo)
    (mdMap : List (String × MarketData)) (d : Decision) (psz tot : ℚ)
    (d' : Decision) (tot' : ℚ)
    (h : openRiskStage cfg acc mdMap d psz tot = .ok (d', tot')) : d'.action = d.action := by
  unfold openRiskStage at h
  simp only at h
  split at h
  · exact Except.noConfusion h
  · split_ifs at h
    all_goals first
    | exact Except.noConfusion h
    | (obtain ⟨ha, -⟩ := ok_pair_inj h
       rw [← ha])

theorem validateOpen_ok_action (cfg : RiskConfig) (acc : AccountInfo)
    (mdMap : List (String × MarketData)) (d : Decision) (tot : ℚ)
    (d' : Decision) (tot' : ℚ)
    (h : validateOpen cfg acc mdMap d tot = .ok (d', tot')) : d'.action = d.action := by
  unfold validateOpen at h
  split_ifs at h
  all_goals try split at h
  all_goals try split_ifs at h
  all_goals try split at h
  all_goals try split_ifs at h
  all_goals first
  | exact Except.noConfusion h
  | exact openRiskStage_ok_action cfg acc mdMap d _ tot d' tot' h

theorem openRiskStage_error (cfg : RiskConfig) (acc : AccountInfo)
    (mdMap : List (String × MarketData)) (d : Decision) (psz tot : ℚ) (e : String)
    (h : openRiskStage cfg acc mdMap d psz tot = .error e) :
    e = errRRTooLow ∨ (e = errGlobalBudget ∧ cfg.maxTotalRisk ≤ tot) := by
  unfold openRiskStage at h
  simp only at h
  split at h
  · rename_i e2 hg
    simp only [Except.error.injEq] at h
    obtain ⟨he, hb⟩ := globalClamp_error _ _ _ _ _ _ hg
    exact Or.inr ⟨h ▸ he, hb⟩
  · split_ifs at h
    all_goals first
    | exact Except.noConfusion h
    | (simp only [Except.error.injEq] at h
       exact Or.inl h.symm)

theorem validateOpen_error (cfg : RiskConfig) (acc : AccountInfo)
    (mdMap : List (String × MarketData)) (d : Decision) (tot : ℚ) (e : String)
    (h : validateOpen cfg acc mdMap d tot = .error e) (hglob : e = errGlobalBudget) :
    cfg.maxTotalRisk ≤ tot := by
  subst hglob
  unfold validateOpen at h
  split_ifs at h
  all_goals try
    (simp only [Except.error.injEq] at h
     exact absurd h.symm (by decide))
  all_goals try split at h
  all_goals try split_ifs at h
  all_goals try split at h
  all_goals try split_ifs at h
  all_goals first
  | exact Except.noConfusion h
  | (simp only [Except.error.injEq] at h
     exact absurd h.symm (by decide))
  | (rename_i e2 hres
     simp only [Except.error.injEq] at h
     subst h
     rcases resolveSize_error _ _ _ _ hres with h1 | h1 | h1 <;>
       exact absurd h1 (by decide))
  | (rename_i e2 hmc
     simp only [Except.error.injEq] at h
     subst h
     exact absurd (marginCap_error _ _ _ _ _ _ hmc) (by decide))
  | (rcases openRiskStage_error _ _ _ _ _ _ _ h with h1 | h1
     · exact absurd h1 (by decide)
     · exact h1.2)

/-- A successful validation either routed through the open branch (with an
open action preserved from the alias-mapped input), or left the running risk
total unchanged and produced a non-open decision. -/
theorem validateDecision_ok_cases (cfg : RiskConfig) (acc : AccountInfo)
    (mdMap : List (String × MarketData)) (d : Decision) (tot : ℚ)
    (d' : Decision) (tot' : ℚ)
    (h : validateDecision cfg acc mdMap d tot = .ok (d', tot')) :
    (isOpenAction (preAlias d).action = true ∧
       validateOpen cfg acc mdMap (preAlias d) tot = .ok (d', tot') ∧
       d'.action = (preAlias d).action) ∨
    (tot' = tot ∧ isOpenAction d'.action = false) := by
  unfold validateDecision at h
  simp only at h
  by_cases hc : canonicalAction (preAlias d).action = true
  · rw [if_pos hc] at h
    by_cases ho : isOpenAction (preAlias d).action = true
    · rw [if_pos ho] at h
      exact Or.inl ⟨ho, h, validateOpen_ok_action _ _ _ _ _ _ _ h⟩
    · rw [if_neg ho] at h
      obtain ⟨htot, hact, -⟩ := validateRest_ok _ _ _ _ _ h
      refine Or.inr ⟨htot, ?_⟩
      cases hact with
      | inl ha =>
        rw [ha]
        simpa using ho
      | inr ha =>
        rw [ha]
        rfl
  · rw [if_neg hc] at h
    obtain ⟨ha, hb⟩ := ok_pair_inj h
    refine Or.inr ⟨hb.symm, ?_⟩
    rw [← ha]
    rfl

/-- The only validation error tagged as the global-budget rejection occurs
when the running total has already reached the cap. -/
theorem validateDecision_error_global (cfg : RiskConfig) (acc : AccountInfo)
    (mdMap : List (String × MarketData)) (d : Decision) (tot : ℚ) (e : String)
    (h : validateDecision cfg acc mdMap d tot = .error e) (hglob : e = errGlobalBudget) :
    cfg.maxTotalRisk ≤ tot := by
  unfold validateDecision at h
  simp only at h
  by_cases hc : canonicalAction (preAlias d).action = true
  · rw [if_pos hc] at h
    by_cases ho : isOpenAction (preAlias d).action = true
    · rw [if_pos ho] at h
      exact validateOpen_error _ _ _ _ _ _ h hglob
    · rw [if_neg ho] at h
      subst hglob
      rcases validateRest_error _ _ _ _ h with h1 | h1 | h1 <;> exact absurd h1 (by decide)
  · rw [if_neg hc] at h
    exact Except.noConfusion h

/-- The open-branch guarantees of `validateOpen_ok`, repackaged at the level
of `validateDecision` and of the claims' risk formula `estRiskUsd`. -/
theorem validateDecision_open_spec (cfg : RiskConfig) (acc : AccountInfo)
    (mdMap : List (String × MarketData)) (d : Decision) (tot : ℚ)
    (d' : Decision) (tot' : ℚ)
    (hρ : 0 < cfg.maxRiskPerTrade) (htot : tot ≤ cfg.maxTotalRisk)
    (h : validateDecision cfg acc mdMap d tot = .ok (d', tot'))
    (hOpen : isOpenAction d'.action = true) :
    0 < acc.totalEquity ∧
    0 < estRiskUsd mdMap d' ∧
    estRiskUsd mdMap d' ≤ min (acc.totalEquity * cfg.maxRiskPerTrade) maxRiskUsdHardPerTrade ∧
    (isAltSymbol d'.symbol = true → estRiskUsd mdMap d' ≤ maxRiskUsdAltPerTrade) ∧
    tot' = tot + estRiskUsd mdMap d' / acc.totalEquity ∧
    tot' ≤ cfg.maxTotalRisk ∧
    (estRiskUsd mdMap d' / acc.totalEquity ≤ probeRiskPct →
      probeMinRR ≤ rrOf d' (entryEstimate mdMap d')) ∧
    (probeRiskPct < estRiskUsd mdMap d' / acc.totalEquity →
      strictMinRR cfg ≤ rrOf d' (entryEstimate mdMap d')) := by
  rcases validateDecision_ok_cases cfg acc mdMap d tot d' tot' h with
    ⟨-, hvo, -⟩ | ⟨-, hno⟩
  · obtain ⟨hEq, hent, hrpos, psz', hd', hpsz', hest, hbound, halt, htot', htotle, hp1, hp2⟩ :=
      validateOpen_ok cfg acc mdMap (preAlias d) tot d' tot' hρ htot hvo
    have hent' : entryEstimate mdMap d' = entryEstimate mdMap (preAlias d) := by
      rw [hd']
      rfl
    have hrisk' : riskPctOf d' (entryEstimate mdMap (preAlias d)) =
        riskPctOf (preAlias d) (entryEstimate mdMap (preAlias d)) := by
      rw [hd']
      rfl
    have hrr' : rrOf d' (entryEstimate mdMap (preAlias d)) =
        rrOf (preAlias d) (entryEstimate mdMap (preAlias d)) := by
      rw [hd']
      rfl
    have hpszd : d'.positionSizeUSD = psz' := by
      rw [hd']
    have hestEq : estRiskUsd mdMap d' =
        psz' * |riskPctOf (preAlias d) (entryEstimate mdMap (preAlias d))| / 100 := by
      rw [estRiskUsd_eq mdMap d' (by rw [hent']; exact hent), hent', hpszd, hrisk']
    refine ⟨hEq, ?_, ?_, ?_, ?_, ?_, ?_, ?_⟩
    · rw [hestEq]; exact hest
    · rw [hestEq]; exact hbound
    · intro haltSym
      rw [hestEq]
      apply halt
      have : d'.symbol = (preAlias d).symbol := by
        rw [hd']
      rw [← this]
      exact haltSym
    · rw [hestEq]; exact htot'
    · exact htotle
    · intro hle
      rw [hent', hrr']
      exact hp1 (by rw [hestEq] at hle; exact hle)
    · intro hgt
      rw [hent', hrr']
      exact hp2 (by rw [hestEq] at hgt; exact hgt)
  · rw [hno] at hOpen
    exact absurd hOpen (by decide)

/-- Batch induction: a successful validation run advances the running total
by exactly the sum of the accepted opens' risk fractions, keeps it within the
cap, and every accepted open satisfies the per-trade bounds. -/
theorem ValidateDecisionsAux_spec (cfg : RiskConfig) (acc : AccountInfo)
    (mdMap : List (String × MarketData)) (hρ : 0 < cfg.maxRiskPerTrade) (ds : List Decision) :
    ∀ (tot : ℚ) (ds' : List Decision) (tot' : ℚ),
      tot ≤ cfg.maxTotalRisk →
      ValidateDecisionsAux cfg acc mdMap ds tot = .ok (ds', tot') →
      tot' = tot + ((ds'.filter (fun d => isOpenAction d.action)).map
          (fun d => estRiskUsd mdMap d / acc.totalEquity)).sum ∧
      tot' ≤ cfg.maxTotalRisk ∧
      ∀ d' ∈ ds', isOpenAction d'.action = true →
        0 < estRiskUsd mdMap d' ∧
        estRiskUsd mdMap d' ≤ min (acc.totalEquity * cfg.maxRiskPerTrade) maxRiskUsdHardPerTrade ∧
        (isAltSymbol d'.symbol = true → estRiskUsd mdMap d' ≤ maxRiskUsdAltPerTrade) := by
  induction ds with
  | nil =>
    intro tot ds' tot' htot h
    unfold ValidateDecisionsAux at h
    obtain ⟨ha, hb⟩ := ok_pair_inj h
    subst ha
    subst hb
    simpa using htot
  | cons d ds ih =>
    intro tot ds' tot' htot h
    unfold ValidateDecisionsAux at h
    cases hv : validateDecision cfg acc mdMap d tot with
    | error e =>
      rw [hv] at h
      exact Except.noConfusion h
    | ok p =>
      obtain ⟨d1, tot1⟩ := p
      rw [hv] at h
      simp only at h
      cases hrec : ValidateDecisionsAux cfg acc mdMap ds tot1 with
      | error e =>
        rw [hrec] at h
        exact Except.noConfusion h
      | ok q =>
        obtain ⟨ds1, totF⟩ := q
        rw [hrec] at h
        simp only at h
        obtain ⟨hl, hr⟩ := ok_pair_inj h
        subst hl
        subst hr
        by_cases hopen : isOpenAction d1.action = true
        · obtain ⟨hEq, hpos, hbound, halt, htot1, htot1le, -, -⟩ :=
            validateDecision_open_spec cfg acc mdMap d tot d1 tot1 hρ htot hv hopen
          obtain ⟨ih1, ih2, ih3⟩ := ih tot1 ds1 totF htot1le hrec
          refine ⟨?_, ih2, ?_⟩
          · rw [ih1, htot1]
            simp only [List.filter_cons, hopen, if_true, List.map_cons, List.sum_cons]
            ring
          · intro x hx hxo
            rcases List.mem_cons.mp hx with hx1 | hx2
            · subst hx1
              exact ⟨hpos, hbound, halt⟩
            · exact ih3 x hx2 hxo
        · have htoteq : tot1 = tot := by
            rcases validateDecision_ok_cases cfg acc mdMap d tot d1 tot1 hv with
              ⟨-, -, hact⟩ | ⟨he, -⟩
            · rcases validateDecision_ok_cases cfg acc mdMap d tot d1 tot1 hv with
                ⟨hoa, -, hact2⟩ | ⟨he, -⟩
              · rw [hact2] at hopen
                exact absurd hoa hopen
              · exact he
            · exact he
          subst htoteq
          obtain ⟨ih1, ih2, ih3⟩ := ih tot1 ds1 totF htot hrec
          refine ⟨?_, ih2, ?_⟩
          · rw [ih1]
            have hfalse : isOpenAction d1.action = false := by
              simpa using hopen
            simp only [List.filter_cons, hfalse, if_false, Bool.false_eq_true]
          · intro x hx hxo
            rcases List.mem_cons.mp hx with hx1 | hx2
            · subst hx1
              exact absurd hxo hopen
            · exact ih3 x hx2 hxo

/- ===================================================================== -/
/- ========================= claim theorems ============================ -/
/- ===================================================================== -/

/-- Concrete account used to exercise the claim theorems. -/
def accW : AccountInfo :=
  { totalEquity := 700, availableBalance := 700, unrealizedPnL := 0, totalPnL := 0,
    totalPnLPct := 0, marginUsed := 0, marginUsedPct := 0, positionCount := 0 }

/-- Concrete market snapshot used to exercise the claim theorems. -/
def mdBTC : MarketData := { symbol := "BTCUSDT", currentPrice := 100, atr14_5m := 2 }

/-- Concrete market-data map used to exercise the claim theorems. -/
def mdW : List (String × MarketData) := [("BTCUSDT", mdBTC)]

/-- Concrete open decision used to exercise the claim theorems
(validated unchanged: risk 10 USDT on 700 equity, risk-reward 3). -/
def dOpenW : Decision :=
  { mkDecision with
    symbol := "BTCUSDT", action := "open_long", leverage := 15,
    positionSizeUSD := 1000, stopLoss := 99, takeProfit := 103 }

/-- Claim C1: for every batch that `ValidateDecisions` accepts under a sane
strategy configuration (positive per-trade risk cap, non-negative total risk
cap), every `open_long` / `open_short` decision as mutated in place has
estimated single-trade risk USD (notional · |entry − stop-loss| / entry) at
most min(equity · ρ_trade, the hard absolute cap) and, for a symbol other
than BTCUSDT / ETHUSDT, at most the altcoin absolute cap; the running total
returned is exactly the sum of the accepted opens' risk fractions of equity
and is at most ρ_total; the global-budget rejection fires only when the
budget is already exhausted, and each accepted open advances the budget by
exactly its own (possibly shrunk) risk fraction while staying within
ρ_total. -/
theorem claim_c1_risk_bounds (cfg : RiskConfig) (acc : AccountInfo)
    (mdMap : List (String × MarketData))
    (hρ : 0 < cfg.maxRiskPerTrade) (hτ : 0 ≤ cfg.maxTotalRisk) :
    (∀ ds ds' tot, ValidateDecisions cfg acc mdMap ds = .ok (ds', tot) →
      (∀ d' ∈ ds', isOpenAction d'.action = true →
        estRiskUsd mdMap d' ≤
          min (acc.totalEquity * cfg.maxRiskPerTrade) maxRiskUsdHardPerTrade ∧
        (isAltSymbol d'.symbol = true → estRiskUsd mdMap d' ≤ maxRiskUsdAltPerTrade)) ∧
      tot = ((ds'.filter (fun d => isOpenAction d.action)).map
          (fun d => estRiskUsd mdMap d / acc.totalEquity)).sum ∧
      tot ≤ cfg.maxTotalRisk) ∧
    (∀ d t, t < cfg.maxTotalRisk →
      validateDecision cfg acc mdMap d t ≠ .error errGlobalBudget) ∧
    (∀ d t d' t', t ≤ cfg.maxTotalRisk →
      validateDecision cfg acc mdMap d t = .ok (d', t') →
      isOpenAction d'.action = true →
      t' = t + estRiskUsd mdMap d' / acc.totalEquity ∧ t' ≤ cfg.maxTotalRisk) := by
  refine ⟨?_, ?_, ?_⟩
  · intro ds ds' tot h
    obtain ⟨h1, h2, h3⟩ := ValidateDecisionsAux_spec cfg acc mdMap hρ ds 0 ds' tot hτ h
    refine ⟨?_, ?_, h2⟩
    · intro d' hd' ho
      obtain ⟨-, hb, hc⟩ := h3 d' hd' ho
      exact ⟨hb, hc⟩
    · rw [h1, zero_add]
  · intro d t hlt hcontra
    exact absurd (validateDecision_error_global cfg acc mdMap d t errGlobalBudget hcontra rfl)
      (not_le_of_lt hlt)
  · intro d t d' t' hle h hOpen
    obtain ⟨-, -, -, -, h5, h6, -, -⟩ :=
      validateDecision_open_spec cfg acc mdMap d t d' t' hρ hle h hOpen
    exact ⟨h5, h6⟩

theorem claim_c1_witness :
    validateDecision balancedRiskConfig accW mdW dOpenW 0 ≠ Except.error errGlobalBudget :=
  (claim_c1_risk_bounds balancedRiskConfig accW mdW (by norm_num [balancedRiskConfig])
      (by norm_num [balancedRiskConfig])).2.1
    dOpenW 0 (by norm_num [balancedRiskConfig])

/-- Claim C2: for every open decision accepted by the risk engine under a
strategy with a positive minimum risk-reward α (and sane risk caps), the
post-clamp risk fraction of equity is positive, and the decision's
reward% / risk% is at least 1.0 when that fraction is at most 1.5%, and at
least α when it exceeds 1.5%; equivalently, an open below the effective
minimum is rejected. -/
theorem claim_c2_rr_ladder (cfg : RiskConfig) (acc : AccountInfo)
    (mdMap : List (String × MarketData)) (d : Decision) (tot : ℚ)
    (d' : Decision) (tot' : ℚ)
    (hα : 0 < cfg.minRiskReward) (hρ : 0 < cfg.maxRiskPerTrade)
    (htot : tot ≤ cfg.maxTotalRisk)
    (h : validateDecision cfg acc mdMap d tot = .ok (d', tot'))
    (hOpen : isOpenAction d'.action = true) :
    0 < estRiskUsd mdMap d' / acc.totalEquity ∧
    (estRiskUsd mdMap d' / acc.totalEquity ≤ probeRiskPct →
      1 ≤ rrOf d' (entryEstimate mdMap d')) ∧
    (probeRiskPct < estRiskUsd mdMap d' / acc.totalEquity →
      cfg.minRiskReward ≤ rrOf d' (entryEstimate mdMap d')) := by
  obtain ⟨hEq, hpos, -, -, -, -, hp1, hp2⟩ :=
    validateDecision_open_spec cfg acc mdMap d tot d' tot' hρ htot h hOpen
  have hstrict : strictMinRR cfg = cfg.minRiskReward := by
    unfold strictMinRR
    rw [if_neg (not_le_of_lt hα)]
  refine ⟨div_pos hpos hEq, ?_, ?_⟩
  · intro hle
    simpa [probeMinRR] using hp1 hle
  · intro hgt
    rw [← hstrict]
    exact hp2 hgt

theorem claim_c2_witness :
    0 < estRiskUsd mdW dOpenW / accW.totalEquity ∧
    (estRiskUsd mdW dOpenW / accW.totalEquity ≤ probeRiskPct →
      1 ≤ rrOf dOpenW (entryEstimate mdW dOpenW)) ∧
    (probeRiskPct < estRiskUsd mdW dOpenW / accW.totalEquity →
      balancedRiskConfig.minRiskReward ≤ rrOf dOpenW (entryEstimate mdW dOpenW)) :=
  claim_c2_rr_ladder balancedRiskConfig accW mdW dOpenW 0 dOpenW (1/70)
    (by norm_num [balancedRiskConfig]) (by norm_num [balancedRiskConfig])
    (by norm_num [balancedRiskConfig])
    (by norm_num +decide [validateDecision, preAlias, canonicalAction, isOpenAction,
      validateOpen, resolveSize, capBySize, marginCap, entryEstimate, mdLookup, fallbackEntry,
      riskPctOf, rewardPctOf, rrOf, riskClampStage, riskClamp, globalClamp, openRiskStage,
      minRROf, strictMinRR, probeRiskPct, probeMinRR, maxRiskUsdHardPerTrade,
      maxRiskUsdAltPerTrade, maxAltMarginUsagePerTrade, safetyReserveFactor, mkDecision,
      dOpenW, accW, mdW, mdBTC, balancedRiskConfig, isAltSymbol, slTpBad, forcedLeverage,
      List.find?])
    (by decide)

theorem stopDistPct_nonneg (nsl cur : ℚ) (h : 0 < cur) : 0 ≤ stopDistPct nsl cur := by
  unfold stopDistPct
  split_ifs with h1
  · have h2 : 0 ≤ cur - nsl := by linarith
    exact mul_nonneg (div_nonneg h2 (le_of_lt h)) (by norm_num)
  · have h2 : 0 ≤ nsl - cur := by linarith
    exact mul_nonneg (div_nonneg h2 (le_of_lt h)) (by norm_num)

/-- The code's dynamic stop floor equals the specification's
max(0.18%, 0.35 · ATR/price · 100) formula whenever the price is positive. -/
theorem minStopPct_eq_max (md : MarketData) (hcur : 0 < md.currentPrice) :
    minStopPct md = max minStopDistancePctFloor
      (minStopDistanceATRFactor * (md.atr14_5m / md.currentPrice * 100)) := by
  have hcomm : minStopDistanceATRFactor * (md.atr14_5m / md.currentPrice * 100) =
      md.atr14_5m / md.currentPrice * 100 * minStopDistanceATRFactor := by ring
  unfold minStopPct
  simp only
  split_ifs with h1 h2
  · rw [hcomm, max_eq_right (le_of_lt h2)]
  · rw [hcomm, max_eq_left (le_of_not_lt h2)]
  · have hatr : md.atr14_5m ≤ 0 := by
      by_contra hc
      exact h1 ⟨lt_of_not_le hc, hcur⟩
    rw [max_eq_left]
    calc minStopDistanceATRFactor * (md.atr14_5m / md.currentPrice * 100) ≤ 0 := by
          have hdiv : md.atr14_5m / md.currentPrice ≤ 0 := div_nonpos_of_nonpos_of_nonneg hatr (le_of_lt hcur)
          have : md.atr14_5m / md.currentPrice * 100 ≤ 0 := by linarith
          unfold minStopDistanceATRFactor
          linarith
      _ ≤ minStopDistancePctFloor := by unfold minStopDistancePctFloor; norm_num

/-- Claim C3 (amended): for every `update_stop_loss` decision validated while
a positive current price is known for its symbol, a new stop whose distance
from the price is strictly between zero and the dynamic floor
max(0.18%, 0.35 · ATR14_5m/price · 100) is downgraded to `hold` rather than
rejected, and an accepted, non-downgraded update has distance at least the
floor **or exactly zero** (a new stop exactly at the current price slips
through the `distPct > 0` guard). -/
theorem claim_c3_stop_distance (cfg : RiskConfig) (acc : AccountInfo)
    (mdMap : List (String × MarketData)) (d : Decision) (tot : ℚ)
    (d' : Decision) (tot' : ℚ) (md : MarketData)
    (hin : d.action = "update_stop_loss")
    (hmd : mdLookup mdMap d.symbol = some md) (hcur : 0 < md.currentPrice)
    (h : validateDecision cfg acc mdMap d tot = .ok (d', tot')) :
    (d'.action = "update_stop_loss" →
      stopDistPct d'.newStopLoss md.currentPrice = 0 ∨
      max minStopDistancePctFloor
          (minStopDistanceATRFactor * (md.atr14_5m / md.currentPrice * 100)) ≤
        stopDistPct d'.newStopLoss md.currentPrice) ∧
    (0 < stopDistPct d'.newStopLoss md.currentPrice ∧
      stopDistPct d'.newStopLoss md.currentPrice <
        max minStopDistancePctFloor
          (minStopDistanceATRFactor * (md.atr14_5m / md.currentPrice * 100)) →
      d'.action = "hold") := by
  have hpa : preAlias d = d := by
    unfold preAlias
    rw [if_neg, if_neg]
    · rintro (h1 | h1 | h1) <;> (rw [hin] at h1; exact absurd h1 (by decide))
    · rw [hin]
      decide
  unfold validateDecision at h
  simp only at h
  rw [hpa] at h
  rw [if_pos (show canonicalAction d.action = true by rw [hin]; decide)] at h
  rw [if_neg (show ¬ isOpenAction d.action = true by rw [hin]; decide)] at h
  unfold validateRest at h
  rw [if_pos hin] at h
  simp only at h
  set d2 : Decision :=
    if d.newStopLoss ≤ 0 ∧ d.stopLoss > 0 then { d with newStopLoss := d.stopLoss } else d
    with hd2
  have hsym2 : d2.symbol = d.symbol := by
    rw [hd2]
    split_ifs <;> rfl
  by_cases h2 : d2.newStopLoss ≤ 0
  · rw [if_pos h2] at h
    exact Except.noConfusion h
  rw [if_neg h2] at h
  rw [hsym2, hmd] at h
  simp only at h
  rw [if_pos hcur] at h
  rw [← minStopPct_eq_max md hcur]
  by_cases h4 : stopDistPct d2.newStopLoss md.currentPrice > 0 ∧
      stopDistPct d2.newStopLoss md.currentPrice < minStopPct md
  · rw [if_pos h4] at h
    obtain ⟨ha, -⟩ := ok_pair_inj h
    constructor
    · intro hup
      rw [← ha] at hup
      simp at hup
    · rintro -
      rw [← ha]
  · rw [if_neg h4] at h
    obtain ⟨ha, -⟩ := ok_pair_inj h
    have hnsl : d'.newStopLoss = d2.newStopLoss := by rw [← ha]
    rw [hnsl]
    constructor
    · rintro -
      have hnn := stopDistPct_nonneg d2.newStopLoss md.currentPrice hcur
      rcases not_and_or.mp h4 with h5 | h5
      · left
        exact le_antisymm (le_of_not_lt h5) hnn
      · right
        exact le_of_not_lt h5
    · intro hcontra
      exact absurd ⟨hcontra.1, hcontra.2⟩ h4

/-- Concrete stop update at exactly the current price: accepted without
downgrade although its distance (zero) is below the dynamic floor. -/
def dSLW : Decision :=
  { mkDecision with symbol := "BTCUSDT", action := "update_stop_loss", newStopLoss := 100 }

/-- Claim C3 counterexample to the claim as stated: with current price 100
and ATR14_5m = 2 the floor is max(0.18, 0.7) = 0.7, yet the update with new
stop exactly 100 (distance 0 < 0.7) is accepted unchanged, not downgraded to
`hold`. -/
theorem claim_c3_counterexample :
    validateDecision balancedRiskConfig accW mdW dSLW 0 = .ok (dSLW, 0) ∧
    dSLW.action = "update_stop_loss" ∧
    (mdLookup mdW dSLW.symbol).map (fun md => md.currentPrice) = some 100 ∧
    stopDistPct dSLW.newStopLoss 100 <
      max minStopDistancePctFloor (minStopDistanceATRFactor * ((2:ℚ) / 100 * 100)) := by
  refine ⟨?_, by decide, by decide, ?_⟩
  · norm_num +decide [validateDecision, preAlias, canonicalAction, isOpenAction, validateRest,
      mdLookup, mdW, mdBTC, dSLW, mkDecision, accW, balancedRiskConfig, stopDistPct,
      minStopPct, minStopDistancePctFloor, minStopDistanceATRFactor, List.find?]
  · norm_num [stopDistPct, dSLW, mkDecision, minStopDistancePctFloor, minStopDistanceATRFactor]

theorem claim_c3_witness :
    (dSLW.action = "update_stop_loss" →
      stopDistPct dSLW.newStopLoss mdBTC.currentPrice = 0 ∨
      max minStopDistancePctFloor
          (minStopDistanceATRFactor * (mdBTC.atr14_5m / mdBTC.currentPrice * 100)) ≤
        stopDistPct dSLW.newStopLoss mdBTC.currentPrice) ∧
    (0 < stopDistPct dSLW.newStopLoss mdBTC.currentPrice ∧
      stopDistPct dSLW.newStopLoss mdBTC.currentPrice <
        max minStopDistancePctFloor
          (minStopDistanceATRFactor * (mdBTC.atr14_5m / mdBTC.currentPrice * 100)) →
      dSLW.action = "hold") :=
  claim_c3_stop_distance balancedRiskConfig accW mdW dSLW 0 dSLW 0 mdBTC
    (by decide) (by decide) (by decide)
    (by norm_num +decide [validateDecision, preAlias, canonicalAction, isOpenAction,
      validateRest, mdLookup, mdW, mdBTC, dSLW, mkDecision, accW, balancedRiskConfig,
      stopDistPct, minStopPct, minStopDistancePctFloor, minStopDistanceATRFactor, List.find?])

/-- A decision carrying the `increase_position` alias, which the normalizer
passes through untouched and the risk engine treats as `open_long`. -/
def dIncW : Decision := { mkDecision with action := "increase_position" }

/-- Claim C4 (amended): `normalizeDecisionActions` rewrites each decision
independently; `close_position` is mapped through the current-position side
index exactly as the claim says (to `close_long` / `close_short` for a
looked-up long/short side, to `wait` for a missing symbol, a missing
position, or an unknown side), `open_position` is mapped through the
lowercased side hint, and — contrary to the claim's closure statement —
every other action passes through unchanged, so an unknown alias can leave
the normalizer non-canonical.  The results of the two mapped aliases are
always canonical. -/
theorem claim_c4_normalize (ds : List Decision) (positions : List PositionInfo) :
    normalizeDecisionActions ds positions = ds.map (normalizeOne (buildPosSide positions)) ∧
    ∀ d : Decision,
      (d.action = "close_position" → d.symbol = "" →
        normalizeOne (buildPosSide positions) d = { d with action := "wait" }) ∧
      (∀ side, d.action = "close_position" → d.symbol ≠ "" →
        assocLookup (buildPosSide positions) d.symbol = some side →
        normalizeOne (buildPosSide positions) d =
          { d with action := if side = "long" then "close_long"
                             else if side = "short" then "close_short" else "wait" }) ∧
      (d.action = "close_position" → d.symbol ≠ "" →
        assocLookup (buildPosSide positions) d.symbol = none →
        normalizeOne (buildPosSide positions) d = { d with action := "wait" }) ∧
      (d.action = "open_position" →
        normalizeOne (buildPosSide positions) d =
          { d with action :=
              if d.side.toLower = "" then "wait"
              else if d.side.toLower = "long" ∨ d.side.toLower = "buy" then "open_long"
              else if d.side.toLower = "short" ∨ d.side.toLower = "sell" then "open_short"
              else "wait" }) ∧
      (d.action ≠ "close_position" → d.action ≠ "open_position" →
        normalizeOne (buildPosSide positions) d = d) ∧
      ((d.action = "close_position" ∨ d.action = "open_position") →
        canonicalAction (normalizeOne (buildPosSide positions) d).action = true) := by
  refine ⟨rfl, fun d => ⟨?_, ?_, ?_, ?_, ?_, ?_⟩⟩
  · intro hc hs
    unfold normalizeOne
    rw [if_pos hc, if_pos hs]
  · intro side hc hs hl
    unfold normalizeOne
    rw [if_pos hc, if_neg hs, hl]
    simp only
    split_ifs <;> rfl
  · intro hc hs hl
    unfold normalizeOne
    rw [if_pos hc, if_neg hs, hl]
  · intro ho
    unfold normalizeOne
    rw [if_neg (show ¬ d.action = "close_position" by rw [ho]; decide), if_pos ho]
    simp only
    split_ifs <;> rfl
  · intro h1 h2
    unfold normalizeOne
    rw [if_neg h1, if_neg h2]
  · intro hor
    unfold normalizeOne
    rcases hor with hc | ho
    · rw [if_pos hc]
      by_cases hs : d.symbol = ""
      · rw [if_pos hs]
        rfl
      · rw [if_neg hs]
        cases hl : assocLookup (buildPosSide positions) d.symbol with
        | none => rfl
        | some side =>
          simp only
          split_ifs <;> rfl
    · rw [if_neg (show ¬ d.action = "close_position" by rw [ho]; decide), if_pos ho]
      simp only
      split_ifs <;> rfl

theorem claim_c4_witness :
    normalizeDecisionActions [dIncW] [] = [dIncW].map (normalizeOne (buildPosSide [])) :=
  (claim_c4_normalize [dIncW] []).1

/-- Claim C4 counterexample to the claim as stated: the batch holding the
single alias decision `increase_position` passes through the normalizer
unchanged, so its output action is not in the canonical set. -/
theorem claim_c4_counterexample :
    normalizeDecisionActions [dIncW] [] = [dIncW] ∧
    canonicalAction dIncW.action = false := by
  exact ⟨by decide, by decide⟩

/-- Claim C5 (amended): a decision whose action is neither canonical nor one
of the special aliases handled first (`increase_position`, which is turned
into `open_long` and then validated as an open, and the `limit_*` family,
which is turned into `wait`) is downgraded to `wait` and validation returns
no error. -/
theorem claim_c5_unknown_to_wait (cfg : RiskConfig) (acc : AccountInfo)
    (mdMap : List (String × MarketData)) (d : Decision) (tot : ℚ)
    (hnc : canonicalAction d.action = false) (hni : d.action ≠ "increase_position") :
    validateDecision cfg acc mdMap d tot = .ok ({ d with action := "wait" }, tot) := by
  unfold validateDecision
  simp only
  by_cases hlim : d.action = "limit_order" ∨ d.action = "limit_long" ∨ d.action = "limit_short"
  · have hpa : preAlias d = { d with action := "wait" } := by
      unfold preAlias
      rw [if_neg hni, if_pos hlim]
    rw [hpa]
    rfl
  · have hpa : preAlias d = d := by
      unfold preAlias
      rw [if_neg hni, if_neg hlim]
    rw [hpa]
    rw [if_neg (show ¬ canonicalAction d.action = true by rw [hnc]; decide)]

/-- An action string outside the canonical set and outside the alias family. -/
def dUnkW : Decision := { mkDecision with action := "buy_the_dip" }

theorem claim_c5_witness :
    validateDecision balancedRiskConfig accW mdW dUnkW 0 =
      .ok ({ dUnkW with action := "wait" }, 0) :=
  claim_c5_unknown_to_wait balancedRiskConfig accW mdW dUnkW 0 (by decide) (by decide)

/-- Claim C5 counterexample to the claim as stated: `increase_position` is
not in the canonical action set, yet `validateDecision` does not downgrade it
to `wait` — it maps it to `open_long` and then rejects this bare decision
(no position size) with an error, so a single unknown-action decision can
fail the whole batch. -/
theorem claim_c5_counterexample :
    canonicalAction dIncW.action = false ∧
    validateDecision balancedRiskConfig accW mdW dIncW 0 = .error errSizeNonpos := by
  refine ⟨by decide, ?_⟩
  norm_num +decide [validateDecision, preAlias, canonicalAction, isOpenAction, validateOpen,
    resolveSize, mkDecision, dIncW, accW, balancedRiskConfig, forcedLeverage]

theorem preAlias_cases (d : Decision) :
    preAlias d = d ∨
    (d.action = "increase_position" ∧ preAlias d = { d with action := "open_long" }) ∨
    preAlias d = { d with action := "wait" } := by
  unfold preAlias
  split_ifs with h1 h2
  · exact Or.inr (Or.inl ⟨h1, rfl⟩)
  · exact Or.inr (Or.inr rfl)
  · exact Or.inl rfl

/-- A batch whose decisions are all non-open and free of the
`increase_position` alias validates to a batch of non-open decisions. -/
theorem ValidateDecisionsAux_no_open (cfg : RiskConfig) (acc : AccountInfo)
    (mdMap : List (String × MarketData)) (ds : List Decision) :
    ∀ (tot : ℚ) (ds' : List Decision) (tot' : ℚ),
      (∀ d ∈ ds, isOpenAction d.action = false ∧ d.action ≠ "increase_position") →
      ValidateDecisionsAux cfg acc mdMap ds tot = .ok (ds', tot') →
      ∀ d' ∈ ds', isOpenAction d'.action = false := by
  induction ds with
  | nil =>
    intro tot ds' tot' hno h
    unfold ValidateDecisionsAux at h
    obtain ⟨ha, -⟩ := ok_pair_inj h
    subst ha
    intro d' hd'
    exact absurd hd' (List.not_mem_nil d')
  | cons d ds ih =>
    intro tot ds' tot' hno h
    unfold ValidateDecisionsAux at h
    cases hv : validateDecision cfg acc mdMap d tot with
    | error e =>
      rw [hv] at h
      exact Except.noConfusion h
    | ok p =>
      obtain ⟨d1, tot1⟩ := p
      rw [hv] at h
      simp only at h
      cases hrec : ValidateDecisionsAux cfg acc mdMap ds tot1 with
      | error e =>
        rw [hrec] at h
        exact Except.noConfusion h
      | ok q =>
        obtain ⟨ds1, totF⟩ := q
        rw [hrec] at h
        simp only at h
        obtain ⟨hl, -⟩ := ok_pair_inj h
        subst hl
        intro d' hd'
        rcases List.mem_cons.mp hd' with rfl | hmem
        · by_cases hopen : isOpenAction d'.action = true
          · exfalso
            rcases validateDecision_ok_cases cfg acc mdMap d tot d' tot1 hv with
              ⟨hoa, -, -⟩ | ⟨-, hno2⟩
            · obtain ⟨hdno, hdni⟩ := hno d (List.mem_cons_self d ds)
              rcases preAlias_cases d with hp | ⟨hinc, -⟩ | hp
              · rw [hp, hdno] at hoa
                exact Bool.noConfusion hoa
              · exact hdni hinc
              · rw [hp] at hoa
                simp [isOpenAction] at hoa
            · rw [hopen] at hno2
              exact Bool.noConfusion hno2
          · simpa using hopen
        · exact ih tot1 ds1 totF (fun x hx => hno x (List.mem_cons_of_mem d hx)) hrec d' hmem

/-- Claim C6 (amended): when the peak equity is positive and drawdown has
reached 25%, the defensive override rewrites exactly the `open_long` /
`open_short` decisions of the normalized batch to `wait` (everything else
passes through as a member, unchanged), leaving no open action before
validation; and — provided the batch carries no `increase_position` alias,
which the risk engine would turn back into an `open_long` after the override
— no decision with an open action reaches `ExecuteDecision`. -/
theorem claim_c6_defensive (cfg : RiskConfig) (acc : AccountInfo)
    (mdMap : List (String × MarketData)) (positions : List PositionInfo)
    (peakEquity : ℚ) (ds : List Decision)
    (hpeak : 0 < peakEquity) (hdd : 25/100 ≤ drawdownOf peakEquity acc.totalEquity) :
    applyDefensiveMode peakEquity acc.totalEquity (normalizeDecisionActions ds positions) =
      (normalizeDecisionActions ds positions).map
        (fun d => if d.action = "open_long" ∨ d.action = "open_short" then
            { d with action := "wait" } else d) ∧
    (∀ d ∈ applyDefensiveMode peakEquity acc.totalEquity
        (normalizeDecisionActions ds positions),
      isOpenAction d.action = false) ∧
    (∀ d ∈ normalizeDecisionActions ds positions,
      ¬ (d.action = "open_long" ∨ d.action = "open_short") →
      d ∈ applyDefensiveMode peakEquity acc.totalEquity
        (normalizeDecisionActions ds positions)) ∧
    (∀ ex, (∀ d ∈ normalizeDecisionActions ds positions, d.action ≠ "increase_position") →
      pipelineExecuted cfg acc mdMap positions peakEquity ds = .ok ex →
      ∀ d ∈ ex, isOpenAction d.action = false) := by
  have heq : applyDefensiveMode peakEquity acc.totalEquity
      (normalizeDecisionActions ds positions) =
      (normalizeDecisionActions ds positions).map
        (fun d => if d.action = "open_long" ∨ d.action = "open_short" then
            { d with action := "wait" } else d) := by
    unfold applyDefensiveMode
    rw [if_pos ⟨hpeak, hdd⟩]
  have hnonopen : ∀ d ∈ applyDefensiveMode peakEquity acc.totalEquity
      (normalizeDecisionActions ds positions), isOpenAction d.action = false := by
    intro d hd
    rw [heq] at hd
    obtain ⟨x, -, rfl⟩ := List.mem_map.mp hd
    by_cases hx : x.action = "open_long" ∨ x.action = "open_short"
    · rw [if_pos hx]
      rfl
    · rw [if_neg hx]
      unfold isOpenAction
      rw [if_neg hx]
  refine ⟨heq, hnonopen, ?_, ?_⟩
  · intro d hd hno
    rw [heq]
    refine List.mem_map.mpr ⟨d, hd, ?_⟩
    rw [if_neg hno]
  · intro ex hno hpipe d hd
    unfold pipelineExecuted at hpipe
    simp only at hpipe
    set ds2 := applyDefensiveMode peakEquity acc.totalEquity
      (normalizeDecisionActions ds positions) with hds2
    cases hval : ValidateDecisions cfg acc mdMap ds2 with
    | error e =>
      rw [hval] at hpipe
      exact Except.noConfusion hpipe
    | ok q =>
      obtain ⟨ds3, totF⟩ := q
      rw [hval] at hpipe
      simp only [Except.ok.injEq] at hpipe
      have hprops : ∀ x ∈ ds2, isOpenAction x.action = false ∧
          x.action ≠ "increase_position" := by
        intro x hx
        refine ⟨hnonopen x hx, ?_⟩
        rw [heq] at hx
        obtain ⟨y, hy, rfl⟩ := List.mem_map.mp hx
        by_cases hyo : y.action = "open_long" ∨ y.action = "open_short"
        · rw [if_pos hyo]
          intro hc
          exact absurd hc (by simp)
        · rw [if_neg hyo]
          exact hno y hy
      have hd3 : d ∈ ds3 := by
        rw [← hpipe] at hd
        exact List.mem_of_mem_filter hd
      exact ValidateDecisionsAux_no_open cfg acc mdMap ds2 0 ds3 totF hprops hval d hd3

theorem claim_c6_witness :
    applyDefensiveMode 1000 accW.totalEquity (normalizeDecisionActions [] []) =
      (normalizeDecisionActions [] []).map
        (fun d => if d.action = "open_long" ∨ d.action = "open_short" then
            { d with action := "wait" } else d) :=
  (claim_c6_defensive balancedRiskConfig accW mdW [] 1000 []
    (by norm_num) (by norm_num [drawdownOf, accW])).1

/-- A fully-parameterized `increase_position` decision that the risk engine
turns into a valid `open_long`. -/
def dIncOpenW : Decision :=
  { mkDecision with
    symbol := "BTCUSDT", action := "increase_position", leverage := 15,
    positionSizeUSD := 1000, stopLoss := 99, takeProfit := 103 }

/-- Claim C6 counterexample to the claim as stated: with peak equity 1000 and
current equity 700 (30% drawdown, defensive mode active), the batch holding
one `increase_position` decision sails past the override, is converted to
`open_long` by the risk engine, and reaches the execution stage. -/
theorem claim_c6_counterexample :
    (0:ℚ) < 1000 ∧ 25/100 ≤ drawdownOf 1000 accW.totalEquity ∧
    pipelineExecuted balancedRiskConfig accW mdW [] 1000 [dIncOpenW] =
      .ok [{ dIncOpenW with action := "open_long" }] ∧
    isOpenAction ({ dIncOpenW with action := "open_long" } : Decision).action = true := by
  refine ⟨by norm_num, by norm_num [drawdownOf, accW], ?_, by decide⟩
  norm_num +decide [pipelineExecuted, normalizeDecisionActions, normalizeOne, buildPosSide,
    applyDefensiveMode, drawdownOf, ValidateDecisions, ValidateDecisionsAux, validateDecision,
    preAlias, canonicalAction, isOpenAction, validateOpen, resolveSize, capBySize, marginCap,
    entryEstimate, mdLookup, fallbackEntry, riskPctOf, rewardPctOf, rrOf, riskClampStage,
    riskClamp, globalClamp, openRiskStage, minRROf, strictMinRR, probeRiskPct, probeMinRR,
    maxRiskUsdHardPerTrade, maxRiskUsdAltPerTrade, maxAltMarginUsagePerTrade,
    safetyReserveFactor, mkDecision, dIncOpenW, accW, mdW, mdBTC, balancedRiskConfig,
    isAltSymbol, slTpBad, forcedLeverage, List.find?, List.filter]

theorem revaluePosition_symbol (mdMap : List (String × MarketData)) (p : PositionInfo) :
    (revaluePosition mdMap p).symbol = p.symbol := by
  unfold revaluePosition
  cases mdLookup mdMap p.symbol with
  | none => rfl
  | some md =>
    simp only
    split_ifs <;> rfl

/-- The account refresh always reports equity = available + margin + PnL for
its own (coverage-filtered) sums, and leaves the available balance alone. -/
theorem revalueAccountCore_fields (mdMap : List (String × MarketData))
    (positions : List PositionInfo) (acc : AccountInfo) (ie : ℚ) :
    (revalueAccountCore mdMap positions acc ie).availableBalance = acc.availableBalance ∧
    (revalueAccountCore mdMap positions acc ie).marginUsed =
      (((positions.map (revaluePosition mdMap)).filter (mdCovered mdMap)).map
        (fun p => p.marginUsed)).sum ∧
    (revalueAccountCore mdMap positions acc ie).unrealizedPnL =
      (((positions.map (revaluePosition mdMap)).filter (mdCovered mdMap)).map
        (fun p => p.unrealizedPnL)).sum ∧
    (revalueAccountCore mdMap positions acc ie).totalEquity =
      (revalueAccountCore mdMap positions acc ie).availableBalance +
      (revalueAccountCore mdMap positions acc ie).marginUsed +
      (revalueAccountCore mdMap positions acc ie).unrealizedPnL := by
  unfold revalueAccountCore
  simp only
  split_ifs <;> simp

theorem filter_covered_of_all (mdMap : List (String × MarketData))
    (ps : List PositionInfo) (h : ∀ p ∈ ps, mdCovered mdMap p = true) :
    (ps.map (revaluePosition mdMap)).filter (mdCovered mdMap) =
      ps.map (revaluePosition mdMap) := by
  apply List.filter_eq_self.mpr
  intro p hp
  obtain ⟨q, hq, rfl⟩ := List.mem_map.mp hp
  unfold mdCovered
  rw [revaluePosition_symbol]
  exact h q hq

/-- Claim C7 (amended): after a simulated-exchange market-data refresh or a
backtest revaluation, the account always satisfies
TotalEquity = AvailableBalance + MarginUsed + UnrealizedPnL, where the margin
and PnL aggregates are the sums over the open positions **covered by market
data** (the Go loops skip uncovered positions); when every position is
covered these are the sums over all open positions, as claimed. -/
theorem claim_c7_equity_invariant (symbols : List String) (s : ExchState) :
    ((simFetchMarketData symbols s).account.totalEquity =
      (simFetchMarketData symbols s).account.availableBalance +
      (simFetchMarketData symbols s).account.marginUsed +
      (simFetchMarketData symbols s).account.unrealizedPnL) ∧
    ((btRevalueAccount s).account.totalEquity =
      (btRevalueAccount s).account.availableBalance +
      (btRevalueAccount s).account.marginUsed +
      (btRevalueAccount s).account.unrealizedPnL) ∧
    ((∀ p ∈ s.positions, mdCovered (symbols.foldl simFetchMdStep s.marketData) p = true) →
      (simFetchMarketData symbols s).account.marginUsed =
        ((simFetchMarketData symbols s).positions.map (fun p => p.marginUsed)).sum ∧
      (simFetchMarketData symbols s).account.unrealizedPnL =
        ((simFetchMarketData symbols s).positions.map (fun p => p.unrealizedPnL)).sum) ∧
    ((∀ p ∈ s.positions, mdCovered s.marketData p = true) →
      (btRevalueAccount s).account.marginUsed =
        ((btRevalueAccount s).positions.map (fun p => p.marginUsed)).sum ∧
      (btRevalueAccount s).account.unrealizedPnL =
        ((btRevalueAccount s).positions.map (fun p => p.unrealizedPnL)).sum) := by
  have hacc1 : (simFetchMarketData symbols s).account =
      revalueAccountCore (symbols.foldl simFetchMdStep s.marketData) s.positions s.account
        s.initialEquity := rfl
  have hpos1 : (simFetchMarketData symbols s).positions =
      s.positions.map (revaluePosition (symbols.foldl simFetchMdStep s.marketData)) := rfl
  have hacc2 : (btRevalueAccount s).account =
      revalueAccountCore s.marketData s.positions s.account s.initialEquity := rfl
  have hpos2 : (btRevalueAccount s).positions =
      s.positions.map (revaluePosition s.marketData) := rfl
  obtain ⟨-, hm1, hu1, he1⟩ := revalueAccountCore_fields
    (symbols.foldl simFetchMdStep s.marketData) s.positions s.account s.initialEquity
  obtain ⟨-, hm2, hu2, he2⟩ := revalueAccountCore_fields
    s.marketData s.positions s.account s.initialEquity
  refine ⟨by rw [hacc1]; exact he1, by rw [hacc2]; exact he2, ?_, ?_⟩
  · intro hcov
    rw [filter_covered_of_all _ _ hcov] at hm1 hu1
    rw [hacc1, hpos1]
    exact ⟨hm1, hu1⟩
  · intro hcov
    rw [filter_covered_of_all _ _ hcov] at hm2 hu2
    rw [hacc2, hpos2]
    exact ⟨hm2, hu2⟩

/-- A long position on a symbol with no market data. -/
def posX : PositionInfo :=
  { symbol := "XRPUSDT", side := "long", entryPrice := 100, markPrice := 100, quantity := 1,
    leverage := 10, unrealizedPnL := 0, unrealizedPnLPct := 0, marginUsed := 10 }

/-- An exchange state holding only that uncovered position. -/
def stX : ExchState :=
  { account := { totalEquity := 100, availableBalance := 90, unrealizedPnL := 0, totalPnL := 0,
                 totalPnLPct := 0, marginUsed := 10, marginUsedPct := 10, positionCount := 1 },
    positions := [posX], marketData := [], initialEquity := 0 }

theorem claim_c7_witness :
    ((simFetchMarketData ["BTCUSDT"] stX).account.totalEquity =
      (simFetchMarketData ["BTCUSDT"] stX).account.availableBalance +
      (simFetchMarketData ["BTCUSDT"] stX).account.marginUsed +
      (simFetchMarketData ["BTCUSDT"] stX).account.unrealizedPnL) ∧
    ((btRevalueAccount stX).account.totalEquity =
      (btRevalueAccount stX).account.availableBalance +
      (btRevalueAccount stX).account.marginUsed +
      (btRevalueAccount stX).account.unrealizedPnL) :=
  ⟨(claim_c7_equity_invariant ["BTCUSDT"] stX).1,
   (claim_c7_equity_invariant [] stX).2.1⟩

/-- Claim C7 counterexample to the claim as stated: refreshing market data for
BTCUSDT only, while the lone open position is on XRPUSDT, yields equity 90
(the uncovered position's margin is dropped from the sums) whereas
available + Σ margin + Σ PnL over **all** open positions is 100. -/
theorem claim_c7_counterexample :
    (simFetchMarketData ["BTCUSDT"] stX).account.totalEquity = 90 ∧
    (simFetchMarketData ["BTCUSDT"] stX).account.availableBalance +
      ((simFetchMarketData ["BTCUSDT"] stX).positions.map (fun p => p.marginUsed)).sum +
      ((simFetchMarketData ["BTCUSDT"] stX).positions.map (fun p => p.unrealizedPnL)).sum
      = 100 ∧
    ¬ ((simFetchMarketData ["BTCUSDT"] stX).account.totalEquity =
        (simFetchMarketData ["BTCUSDT"] stX).account.availableBalance +
        ((simFetchMarketData ["BTCUSDT"] stX).positions.map (fun p => p.marginUsed)).sum +
        ((simFetchMarketData ["BTCUSDT"] stX).positions.map (fun p => p.unrealizedPnL)).sum) := by
  refine ⟨?_, ?_, ?_⟩ <;>
  norm_num +decide [simFetchMarketData, simFetchMdStep, revalueAccountCore, revaluePosition,
    mdCovered, mdLookup, mdSet, stX, posX, List.foldl, List.filter, List.find?]

theorem hardStopThreshold_neg (symbol : String) : hardStopThreshold symbol < 0 := by
  unfold hardStopThreshold
  split_ifs <;> norm_num

/-- Claim C8: the hard stop-loss sweep issues a forced close for exactly the
positions whose unrealized PnL% is at or below the per-class threshold (−30
for BTCUSDT/ETHUSDT, −25 otherwise), in position order, leaving the rest
untouched; the close direction matches the held side. -/
theorem claim_c8_hard_stop (positions : List PositionInfo) :
    enforceHardStopLoss positions =
      (positions.filter
        (fun p => p.unrealizedPnLPct ≤ hardStopThreshold p.symbol)).map hardStopDecision ∧
    (∀ p ∈ positions, hardStopThreshold p.symbol =
      (if p.symbol = "BTCUSDT" ∨ p.symbol = "ETHUSDT" then (-30 : ℚ) else -25)) ∧
    (∀ p : PositionInfo, p.side.toLower = "short" →
      (hardStopDecision p).action = "close_short" ∧ (hardStopDecision p).symbol = p.symbol) ∧
    (∀ p : PositionInfo, ¬ p.side.toLower = "short" →
      (hardStopDecision p).action = "close_long" ∧ (hardStopDecision p).symbol = p.symbol) := by
  refine ⟨?_, fun p _ => rfl,
    fun p h => by simp [hardStopDecision, h],
    fun p h => by simp [hardStopDecision, h]⟩
  induction positions with
  | nil => rfl
  | cons p ps ih =>
    have hth := hardStopThreshold_neg p.symbol
    by_cases hle : p.unrealizedPnLPct ≤ hardStopThreshold p.symbol
    · have hneg : ¬ p.unrealizedPnLPct ≥ 0 :=
        fun hge => absurd hle (not_le.mpr (lt_of_lt_of_le hth hge))
      simp only [enforceHardStopLoss] at ih ⊢
      simp [List.filterMap_cons, List.filter_cons, hle, hneg, ih]
    · simp only [enforceHardStopLoss] at ih ⊢
      by_cases hge : p.unrealizedPnLPct ≥ 0
      · simp [List.filterMap_cons, List.filter_cons, hle, hge, ih]
      · simp [List.filterMap_cons, List.filter_cons, hle, hge, ih]

/-- A BTCUSDT long 35% under water (past the −30 major threshold). -/
def posC8L : PositionInfo :=
  { symbol := "BTCUSDT", side := "long", entryPrice := 100, markPrice := 65, quantity := 1,
    leverage := 10, unrealizedPnL := -35/10, unrealizedPnLPct := -35, marginUsed := 10 }

/-- A SOLUSDT short 26% under water (past the −25 altcoin threshold). -/
def posC8S : PositionInfo :=
  { symbol := "SOLUSDT", side := "short", entryPrice := 100, markPrice := 126, quantity := 1,
    leverage := 10, unrealizedPnL := -26/10, unrealizedPnLPct := -26, marginUsed := 10 }

/-- An ETHUSDT long only 10% under water (above its −30 threshold). -/
def posC8OK : PositionInfo :=
  { symbol := "ETHUSDT", side := "long", entryPrice := 100, markPrice := 90, quantity := 1,
    leverage := 10, unrealizedPnL := -1, unrealizedPnLPct := -10, marginUsed := 10 }

theorem claim_c8_witness :
    enforceHardStopLoss [posC8L, posC8S, posC8OK] =
      ([posC8L, posC8S, posC8OK].filter
        (fun p => p.unrealizedPnLPct ≤ hardStopThreshold p.symbol)).map hardStopDecision ∧
    enforceHardStopLoss [posC8L, posC8S, posC8OK] =
      [hardStopDecision posC8L, hardStopDecision posC8S] :=
  ⟨(claim_c8_hard_stop [posC8L, posC8S, posC8OK]).1, by
    norm_num +decide [enforceHardStopLoss, hardStopThreshold, posC8L, posC8S, posC8OK,
      List.filterMap]⟩

/-- Claim C9: for every response string (and every behaviour of the regex and
unmarshal helpers), `parseAIResponse` returns a decision record and no error;
the reasoning text is never empty when the decision list is empty, and every
failure mode — nothing extracted, the format validation rejecting, or the
unmarshal failing — yields the empty decision list rather than an error. -/
theorem claim_c9_parser_total (pr : ParserPrims) (response : String) :
    ∃ fd : FullDecision, parseAIResponse pr response = .ok fd ∧
      fd.decisions = parsedDecisions pr response ∧
      (fd.decisions = [] → ¬ fd.cotTrace = "") ∧
      (extractedJSON pr response = "" → fd.decisions = []) ∧
      (∀ e, validateJSONFormat (repairedJSON pr response) = .error e → fd.decisions = []) ∧
      (pr.unmarshalDecisions (repairedJSON pr response) = none → fd.decisions = []) := by
  unfold parseAIResponse
  simp only
  refine ⟨_, rfl, rfl, ?_, ?_, ?_, ?_⟩
  · intro h
    simp only at h
    by_cases hr : (rawReasoning pr response).trim = ""
    · simp [h, hr]
    · simp [h, hr]
  · intro h
    simp [parsedDecisions, h]
  · intro e he
    by_cases hjc : extractedJSON pr response = ""
    · simp [parsedDecisions, hjc]
    · simp [parsedDecisions, hjc, he]
  · intro hn
    by_cases hjc : extractedJSON pr response = ""
    · simp [parsedDecisions, hjc]
    · cases hv : validateJSONFormat (repairedJSON pr response) with
      | error e => simp [parsedDecisions, hjc, hv]
      | ok u => simp [parsedDecisions, hjc, hv, hn]

theorem claim_c9_witness :
    ∃ fd : FullDecision, parseAIResponse trivialPrims "" = .ok fd ∧
      fd.decisions = parsedDecisions trivialPrims "" ∧
      (fd.decisions = [] → ¬ fd.cotTrace = "") ∧
      (extractedJSON trivialPrims "" = "" → fd.decisions = []) ∧
      (∀ e, validateJSONFormat (repairedJSON trivialPrims "") = .error e → fd.decisions = []) ∧
      (trivialPrims.unmarshalDecisions (repairedJSON trivialPrims "") = none →
        fd.decisions = []) :=
  claim_c9_parser_total trivialPrims ""

theorem posLookup_symbol (ps : List PositionInfo) (sym : String) (p : PositionInfo)
    (h : posLookup ps sym = some p) : p.symbol = sym := by
  unfold posLookup at h
  have := List.find?_some h
  simpa using this

theorem posLookup_delete_self (ps : List PositionInfo) (sym : String) :
    posLookup (posDelete ps sym) sym = none := by
  unfold posLookup posDelete
  induction ps with
  | nil => rfl
  | cons p ps ih =>
    by_cases h : p.symbol = sym
    · simpa [List.filter_cons, h] using ih
    · simpa [List.filter_cons, h, List.find?_cons] using ih

theorem find_map_replace (ps : List PositionInfo) (p : PositionInfo)
    (hmem : posLookup ps p.symbol ≠ none) :
    (ps.map (fun q => if q.symbol = p.symbol then p else q)).find?
      (fun q => q.symbol = p.symbol) = some p := by
  induction ps with
  | nil => exact absurd rfl hmem
  | cons q ps ih =>
    by_cases h : q.symbol = p.symbol
    · simp [List.find?_cons, h]
    · have hmem2 : posLookup ps p.symbol ≠ none := by
        intro hn
        apply hmem
        unfold posLookup at hn ⊢
        rw [List.find?_cons]
        simp [h, hn]
      simp [List.find?_cons, h, ih hmem2]

theorem posLookup_set_self (ps : List PositionInfo) (p : PositionInfo)
    (hmem : posLookup ps p.symbol ≠ none) :
    posLookup (posSet ps p) p.symbol = some p := by
  unfold posSet
  rw [if_pos (Option.isSome_iff_ne_none.mpr hmem)]
  exact find_map_replace ps p hmem

/-- Claim C10 (amended): in the **backtest** exchange, a `partial_close` of
pct ∈ (0, 100] of an open position with positive price, quantity and margin
succeeds, credits the available balance with pct/100 of the margin plus
pct/100 of the position's total unrealized PnL at the current price, removes
the position when pct = 100, and otherwise scales its quantity and margin by
exactly (1 − pct/100).  (The simulated exchange has no `partial_close`
branch at all: see the counterexample.) -/
theorem claim_c10_partial_close (s : ExchState) (d : Decision) (pos : PositionInfo)
    (md : MarketData)
    (hpos : posLookup s.positions d.symbol = some pos)
    (hmd : mdLookup s.marketData d.symbol = some md)
    (hprice : 0 < md.currentPrice)
    (hqty : 0 < pos.quantity)
    (hmargin : 0 < pos.marginUsed)
    (hact : d.action = "partial_close")
    (hcp0 : 0 < d.closePercentage) (hcp1 : d.closePercentage ≤ 100) :
    ∃ s2 : ExchState, btExecuteDecision s d = .ok s2 ∧
      s2.account.availableBalance = s.account.availableBalance +
        d.closePercentage / 100 * pos.marginUsed +
        d.closePercentage / 100 *
          (if pos.side = "long" then (md.currentPrice - pos.entryPrice) * pos.quantity
           else (pos.entryPrice - md.currentPrice) * pos.quantity) ∧
      (d.closePercentage = 100 → posLookup s2.positions d.symbol = none) ∧
      (d.closePercentage < 100 →
        ∃ pos2 : PositionInfo, posLookup s2.positions d.symbol = some pos2 ∧
          pos2.quantity = (1 - d.closePercentage / 100) * pos.quantity ∧
          pos2.marginUsed = (1 - d.closePercentage / 100) * pos.marginUsed) := by
  have hsym : pos.symbol = d.symbol := posLookup_symbol _ _ _ hpos
  have hfrac0 : (0:ℚ) < d.closePercentage / 100 := by positivity
  have hfrac1 : d.closePercentage / 100 ≤ 1 := by linarith [div_le_one_of_le hcp1 (by norm_num : (0:ℚ) ≤ 100)]
  unfold btExecuteDecision
  rw [hmd]
  simp only
  rw [if_neg (not_le.mpr hprice), if_neg (by simp [hact]), if_neg (by simp [hact]),
    if_pos hact]
  unfold btPartialClose
  rw [hpos]
  simp only
  rw [if_neg (not_le.mpr hfrac0)]
  simp only
  rw [if_neg (not_lt.mpr hfrac1)]
  rw [if_neg (not_le.mpr (mul_pos hqty hfrac0))]
  have hmargin1 : ¬ pos.marginUsed - pos.marginUsed * (d.closePercentage / 100) < 0 := by
    have := mul_le_mul_of_nonneg_left hfrac1 hmargin.le
    rw [mul_one] at this
    linarith
  rw [if_neg hmargin1]
  refine ⟨_, rfl, ?_, ?_, ?_⟩
  · simp only
    by_cases hside : pos.side = "long"
    · rw [if_pos hside, if_pos hside]
      ring
    · rw [if_neg hside, if_neg hside]
      ring
  · intro h100
    simp only
    rw [if_pos (Or.inl (by rw [h100]; norm_num))]
    exact posLookup_delete_self s.positions d.symbol
  · intro hlt
    have hfrlt : d.closePercentage / 100 < 1 := by
      rw [div_lt_one (by norm_num : (0:ℚ) < 100)]
      exact hlt
    have hq2 : ¬ pos.quantity - pos.quantity * (d.closePercentage / 100) ≤ 0 := by
      have := mul_lt_mul_of_pos_left hfrlt hqty
      rw [mul_one] at this
      linarith
    have hm2 : ¬ pos.marginUsed - pos.marginUsed * (d.closePercentage / 100) = 0 := by
      have := mul_lt_mul_of_pos_left hfrlt hmargin
      rw [mul_one] at this
      intro hz
      linarith
    simp only
    rw [if_neg (by rintro (hc | hc); exact hq2 hc; exact hm2 hc)]
    refine ⟨{ pos with
        quantity := pos.quantity - pos.quantity * (d.closePercentage / 100),
        marginUsed := pos.marginUsed - pos.marginUsed * (d.closePercentage / 100) }, ?_,
      by
        show pos.quantity - pos.quantity * (d.closePercentage / 100) =
          (1 - d.closePercentage / 100) * pos.quantity
        ring,
      by
        show pos.marginUsed - pos.marginUsed * (d.closePercentage / 100) =
          (1 - d.closePercentage / 100) * pos.marginUsed
        ring⟩
    have hmem : posLookup s.positions
        ({ pos with
            quantity := pos.quantity - pos.quantity * (d.closePercentage / 100),
            marginUsed :=
              pos.marginUsed - pos.marginUsed * (d.closePercentage / 100) } :
          PositionInfo).symbol ≠ none := by
      simp only
      rw [hsym, hpos]
      exact fun hc => Option.noConfusion hc
    rw [← hsym]
    exact posLookup_set_self s.positions _ hmem

/-- A BTCUSDT long with entry 90, mark 100, quantity 1, margin 9. -/
def posP : PositionInfo :=
  { symbol := "BTCUSDT", side := "long", entryPrice := 90, markPrice := 100, quantity := 1,
    leverage := 10, unrealizedPnL := 10, unrealizedPnLPct := 111, marginUsed := 9 }

/-- An exchange state holding that position with market data present. -/
def stP : ExchState :=
  { account := { totalEquity := 110, availableBalance := 91, unrealizedPnL := 10, totalPnL := 0,
                 totalPnLPct := 0, marginUsed := 9, marginUsedPct := 8, positionCount := 1 },
    positions := [posP], marketData := [("BTCUSDT", mdBTC)], initialEquity := 100 }

/-- A 50% partial close of that position. -/
def dPCW : Decision :=
  { mkDecision with symbol := "BTCUSDT", action := "partial_close", closePercentage := 50 }

theorem claim_c10_witness :
    (posLookup stP.positions dPCW.symbol = some posP ∧
     mdLookup stP.marketData dPCW.symbol = some mdBTC ∧
     (0:ℚ) < mdBTC.currentPrice ∧ (0:ℚ) < posP.quantity ∧ (0:ℚ) < posP.marginUsed ∧
     dPCW.action = "partial_close" ∧
     (0:ℚ) < dPCW.closePercentage ∧ dPCW.closePercentage ≤ 100) ∧
    (∃ s2 : ExchState, btExecuteDecision stP dPCW = .ok s2 ∧
      s2.account.availableBalance = stP.account.availableBalance +
        dPCW.closePercentage / 100 * posP.marginUsed +
        dPCW.closePercentage / 100 *
          (if posP.side = "long" then (mdBTC.currentPrice - posP.entryPrice) * posP.quantity
           else (posP.entryPrice - mdBTC.currentPrice) * posP.quantity) ∧
      (dPCW.closePercentage = 100 → posLookup s2.positions dPCW.symbol = none) ∧
      (dPCW.closePercentage < 100 →
        ∃ pos2 : PositionInfo, posLookup s2.positions dPCW.symbol = some pos2 ∧
          pos2.quantity = (1 - dPCW.closePercentage / 100) * posP.quantity ∧
          pos2.marginUsed = (1 - dPCW.closePercentage / 100) * posP.marginUsed)) :=
  ⟨⟨by decide, by decide, by decide, by decide, by decide, by decide, by decide, by decide⟩,
   claim_c10_partial_close stP dPCW posP mdBTC (by decide) (by decide) (by decide)
     (by decide) (by decide) (by decide) (by decide) (by decide)⟩

/-- Claim C10 counterexample to the claim as stated for the **simulated**
exchange: its `ExecuteDecision` has no `partial_close` case, so a 50%
partial close of an open position succeeds while leaving the whole state —
position quantity, margin and available balance included — unchanged. -/
theorem claim_c10_counterexample :
    simExecuteDecision stP dPCW = .ok stP ∧
    stP.positions = [posP] ∧ posP.quantity = 1 ∧ posP.marginUsed = 9 ∧
    stP.account.availableBalance = 91 ∧ dPCW.closePercentage = 50 := by
  refine ⟨?_, rfl, rfl, rfl, rfl, rfl⟩
  norm_num +decide [simExecuteDecision, mdLookup, stP, posP, dPCW, mkDecision, mdBTC,
    List.find?]

end DeepTrader
